import Mathlib

/-!
Verification development for the gitdb repository: a SQL document database
persisted in a git object store.  The definitions below are a shallow
embedding of the Rust sources (src/storage, src/catalog, src/executor,
src/transaction); theorems settle the specification claims C1-C10.

Conventions of the embedding:
* machine integers are modelled as `Int`/`Nat`;
* IEEE-754 doubles are modelled by `F64` below: finite values are exact
  rationals (rounding of arithmetic is not modelled), with overflow to the
  infinities at magnitude `2 ^ 1024` and an explicit NaN;
* fallible Rust functions returning `Result` become `Except`;
* `BTreeMap` becomes a key-sorted association list;
* git object ids (content hashes) become structural identity: commits are
  numbered sequentially by the store, trees and blobs are stored
  structurally, so id-equality of content-addressed objects is exactly
  structural equality of their content.
-/

set_option maxRecDepth 4000

namespace GitDB

/-- Model of an IEEE-754 double (`f64`).  Finite doubles are exact
rationals; arithmetic on finite values is exact rational arithmetic with
overflow to the signed infinities at magnitude `2 ^ 1024` (true IEEE
rounding is not modelled).  NaN is an explicit element. -/
inductive F64 where
  | fin (q : ℚ)
  | inf
  | negInf
  | nan
deriving DecidableEq, Repr

/-!
Rational arithmetic is implemented through `mkRat` and the `num`/`den`
projections (the kernel reduces those, unlike the `Rat` field operations),
so every definition below evaluates by `decide`/`rfl` on concrete input.
-/

/-- Embed an integer as a rational. -/
def intToQ (i : ℤ) : ℚ := mkRat i 1

/-- Rational addition (kernel-computable). -/
def qAdd (a b : ℚ) : ℚ := mkRat (a.num * b.den + b.num * a.den) (a.den * b.den)

/-- Rational negation (kernel-computable). -/
def qNeg (a : ℚ) : ℚ := mkRat (-a.num) a.den

/-- Rational subtraction (kernel-computable). -/
def qSub (a b : ℚ) : ℚ := qAdd a (qNeg b)

/-- Rational multiplication (kernel-computable). -/
def qMul (a b : ℚ) : ℚ := mkRat (a.num * b.num) (a.den * b.den)

/-- Rational inverse (kernel-computable); sends 0 to 0. -/
def qInv (b : ℚ) : ℚ :=
  if b.num < 0 then mkRat (-(Int.ofNat b.den)) b.num.natAbs
  else mkRat (Int.ofNat b.den) b.num.natAbs

/-- Rational division (kernel-computable). -/
def qDiv (a b : ℚ) : ℚ := qMul a (qInv b)

/-- Rational absolute value (kernel-computable). -/
def qAbs (a : ℚ) : ℚ := mkRat (Int.ofNat a.num.natAbs) a.den

/-- Truncation toward zero on rationals (Rust `f64::trunc`). -/
def truncQ (q : ℚ) : ℚ := intToQ (if 0 ≤ q then q.floor else q.ceil)

/-- Overflow threshold of the double model. -/
def f64Lim : ℚ := intToQ (Int.ofNat (2 ^ 1024))

/-- Build a finite double, overflowing to the infinities. -/
def clampFin (q : ℚ) : F64 :=
  if f64Lim ≤ q then .inf else if q ≤ qNeg f64Lim then .negInf else .fin q

namespace F64

/-- IEEE addition on the double model. -/
def add : F64 → F64 → F64
  | .nan, _ => .nan
  | _, .nan => .nan
  | .inf, .negInf => .nan
  | .negInf, .inf => .nan
  | .inf, _ => .inf
  | _, .inf => .inf
  | .negInf, _ => .negInf
  | _, .negInf => .negInf
  | .fin a, .fin b => clampFin (qAdd a b)

/-- IEEE negation on the double model. -/
def neg : F64 → F64
  | .nan => .nan
  | .inf => .negInf
  | .negInf => .inf
  | .fin a => .fin (qNeg a)

/-- IEEE subtraction on the double model. -/
def sub (x y : F64) : F64 := add x (neg y)

/-- IEEE multiplication on the double model. -/
def mul : F64 → F64 → F64
  | .nan, _ => .nan
  | _, .nan => .nan
  | .inf, .inf => .inf
  | .inf, .negInf => .negInf
  | .negInf, .inf => .negInf
  | .negInf, .negInf => .inf
  | .inf, .fin b => if b = 0 then .nan else if 0 < b then .inf else .negInf
  | .fin a, .inf => if a = 0 then .nan else if 0 < a then .inf else .negInf
  | .negInf, .fin b => if b = 0 then .nan else if 0 < b then .negInf else .inf
  | .fin a, .negInf => if a = 0 then .nan else if 0 < a then .negInf else .inf
  | .fin a, .fin b => clampFin (qMul a b)

/-- IEEE division on the double model. -/
def div : F64 → F64 → F64
  | .nan, _ => .nan
  | _, .nan => .nan
  | .inf, .fin b => if 0 ≤ b then .inf else .negInf
  | .negInf, .fin b => if 0 ≤ b then .negInf else .inf
  | .fin _, .inf => .fin 0
  | .fin _, .negInf => .fin 0
  | .inf, _ => .nan
  | .negInf, _ => .nan
  | .fin a, .fin b =>
    if b = 0 then (if a = 0 then .nan else if 0 < a then .inf else .negInf)
    else clampFin (qDiv a b)

/-- IEEE remainder (Rust `%` on `f64`): `a - b * trunc (a / b)`;
any zero divisor or non-finite dividend yields NaN. -/
def mod : F64 → F64 → F64
  | .nan, _ => .nan
  | _, .nan => .nan
  | .inf, _ => .nan
  | .negInf, _ => .nan
  | .fin a, .inf => .fin a
  | .fin a, .negInf => .fin a
  | .fin a, .fin b =>
    if b = 0 then .nan else .fin (qSub a (qMul b (truncQ (qDiv a b))))

/-- Rust `f64::fract`: `self - self.trunc()`; NaN for non-finite inputs. -/
def fract : F64 → F64
  | .fin q => .fin (qSub q (truncQ q))
  | _ => .nan

/-- IEEE equality (`==` on `f64`): NaN compares unequal to everything. -/
def beq : F64 → F64 → Bool
  | .fin a, .fin b => a = b
  | .inf, .inf => true
  | .negInf, .negInf => true
  | _, _ => false

/-- Saturating Rust cast `as i64` from a double. -/
def toI64 : F64 → ℤ
  | .nan => 0
  | .inf => 2 ^ 63 - 1
  | .negInf => -(2 ^ 63)
  | .fin q =>
    let t : ℤ := if 0 ≤ q then q.floor else q.ceil
    if t < -(2 ^ 63) then -(2 ^ 63) else if 2 ^ 63 - 1 < t then 2 ^ 63 - 1 else t

end F64

/-- Model of `serde_json::Number`: either an integer (covering the `u64`
and `i64` representations; serde only constructs values in
`[-2^63, 2^64)`) or a finite double. -/
inductive Num where
  | int (i : ℤ)
  | float (q : ℚ)
deriving DecidableEq, Repr

namespace Num

/-- serde_json `Number::is_i64`. -/
def isI64 : Num → Bool
  | .int i => decide (-(2 ^ 63) ≤ i ∧ i < 2 ^ 63)
  | .float _ => false

/-- serde_json `Number::is_u64`. -/
def isU64 : Num → Bool
  | .int i => decide (0 ≤ i ∧ i < 2 ^ 64)
  | .float _ => false

/-- serde_json `Number::as_f64` (always defined; the rounding of integers
beyond `2 ^ 53` is not modelled). -/
def asF64 : Num → F64
  | .int i => .fin (intToQ i)
  | .float q => .fin q

end Num

/-- serde_json `Number::from_f64`: `none` exactly on NaN and infinities. -/
def numFromF64 : F64 → Option Num
  | .fin q => some (.float q)
  | _ => none

/-- Model of `serde_json::Value`.  Objects are association lists; the maps
produced by the program are key-sorted (serde_json `Map` is a `BTreeMap`). -/
inductive Json where
  | null
  | bool (b : Bool)
  | num (n : Num)
  | str (s : String)
  | arr (elems : List Json)
  | obj (fields : List (String × Json))

mutual

/-- Structural equality test for JSON values. -/
def jsonBEq : Json → Json → Bool
  | .null, .null => true
  | .bool a, .bool b => a == b
  | .num a, .num b => decide (a = b)
  | .str a, .str b => a == b
  | .arr as, .arr bs => jsonListBEq as bs
  | .obj as, .obj bs => jsonFieldsBEq as bs
  | _, _ => false

/-- Structural equality test for JSON arrays. -/
def jsonListBEq : List Json → List Json → Bool
  | [], [] => true
  | a :: as, b :: bs => jsonBEq a b && jsonListBEq as bs
  | _, _ => false

/-- Structural equality test for JSON object fields. -/
def jsonFieldsBEq : List (String × Json) → List (String × Json) → Bool
  | [], [] => true
  | (k, v) :: as, (l, w) :: bs => k == l && (jsonBEq v w && jsonFieldsBEq as bs)
  | _, _ => false

end

mutual

theorem jsonBEq_refl : ∀ a : Json, jsonBEq a a = true
  | .null => rfl
  | .bool a => by simp [jsonBEq]
  | .num a => by simp [jsonBEq]
  | .str a => by simp [jsonBEq]
  | .arr as => by simp [jsonBEq, jsonListBEq_refl as]
  | .obj as => by simp [jsonBEq, jsonFieldsBEq_refl as]

theorem jsonListBEq_refl : ∀ as : List Json, jsonListBEq as as = true
  | [] => rfl
  | a :: as => by simp [jsonListBEq, jsonBEq_refl a, jsonListBEq_refl as]

theorem jsonFieldsBEq_refl : ∀ as : List (String × Json), jsonFieldsBEq as as = true
  | [] => rfl
  | (k, v) :: as => by
    simp [jsonFieldsBEq, jsonBEq_refl v, jsonFieldsBEq_refl as]

end

mutual

theorem jsonBEq_sound : ∀ {a b : Json}, jsonBEq a b = true → a = b
  | .null, .null, _ => rfl
  | .bool a, .bool b, h => by simpa [jsonBEq] using h
  | .num a, .num b, h => by simpa [jsonBEq] using h
  | .str a, .str b, h => by simpa [jsonBEq] using h
  | .arr as, .arr bs, h => by
    have := @jsonListBEq_sound as bs (by simpa [jsonBEq] using h)
    simp [this]
  | .obj as, .obj bs, h => by
    have := @jsonFieldsBEq_sound as bs (by simpa [jsonBEq] using h)
    simp [this]

theorem jsonListBEq_sound : ∀ {as bs : List Json}, jsonListBEq as bs = true → as = bs
  | [], [], _ => rfl
  | a :: as, b :: bs, h => by
    have h1 : jsonBEq a b = true := by
      have := h; simp [jsonListBEq] at this; exact this.1
    have h2 : jsonListBEq as bs = true := by
      have := h; simp [jsonListBEq] at this; exact this.2
    simp [jsonBEq_sound h1, jsonListBEq_sound h2]

theorem jsonFieldsBEq_sound :
    ∀ {as bs : List (String × Json)}, jsonFieldsBEq as bs = true → as = bs
  | [], [], _ => rfl
  | (k, v) :: as, (l, w) :: bs, h => by
    have h0 : k = l := by
      have := h; simp [jsonFieldsBEq] at this; exact this.1
    have h1 : jsonBEq v w = true := by
      have := h; simp [jsonFieldsBEq] at this; exact this.2.1
    have h2 : jsonFieldsBEq as bs = true := by
      have := h; simp [jsonFieldsBEq] at this; exact this.2.2
    simp [h0, jsonBEq_sound h1, jsonFieldsBEq_sound h2]

end

instance : DecidableEq Json := fun a b =>
  if h : jsonBEq a b = true then .isTrue (jsonBEq_sound h)
  else .isFalse (fun e => h (e ▸ jsonBEq_refl a))

example : F64.mod (.fin 5) (.fin 0) = .nan := by decide
example : numFromF64 (F64.mod (.fin 5) (.fin 0)) = none := by decide
example :
    F64.add (.fin (intToQ (2 ^ 63))) (.fin 1) = .fin (intToQ 9223372036854775809) := by
  decide

instance {ε α : Type _} [DecidableEq ε] [DecidableEq α] : DecidableEq (Except ε α) :=
  fun x y =>
    match x, y with
    | .ok a, .ok b =>
      if h : a = b then .isTrue (by rw [h]) else .isFalse (by simp [h])
    | .error a, .error b =>
      if h : a = b then .isTrue (by rw [h]) else .isFalse (by simp [h])
    | .ok _, .error _ => .isFalse (fun h => Except.noConfusion h)
    | .error _, .ok _ => .isFalse (fun h => Except.noConfusion h)

/-! ## src/storage/types.rs: validated name types -/

/-- `InvalidNameError` from src/storage/types.rs. -/
inductive InvalidNameError where
  | empty
  | tooLong (len : Nat)
  | invalidStart (c : Char)
  | invalidCharacter (c : Char) (position : Nat)
  | reserved (name : String)
  | invalidPath (path : String)
deriving DecidableEq, Repr

/-- Per-character scan of the name-validation loops: first character (with
its index) that is not ASCII alphanumeric, underscore or hyphen. -/
def findInvalidChar : List Char → Nat → Option (Char × Nat)
  | [], _ => none
  | c :: rest, i =>
    if ¬(c.isAlphanum || c == '_' || c == '-') then some (c, i)
    else findInvalidChar rest (i + 1)

/-- ASCII lower-casing of a character code (model of Rust
`str::to_lowercase`, whose full Unicode tables are not modelled; every
string this program lower-cases is ASCII). -/
def lowerCode (n : Nat) : Nat := if 65 ≤ n ∧ n ≤ 90 then n + 32 else n

/-- Lower-cased character codes of a string. -/
def lowerCodes (s : String) : List Nat := s.toList.map (fun c => lowerCode c.toNat)

namespace TableName

/-- `TableName::RESERVED`. -/
def reservedNames : List String := ["_schema", "_meta", "_system", "_git"]

/-- `TableName::validate`, translated clause for clause.  Note the first
character test in the source is `first_char.is_ascii_alphanumeric() &&
first_char != '_'`, which REJECTS names whose first character is an ASCII
letter or digit. -/
def validate (name : String) : Except InvalidNameError Unit :=
  if name.isEmpty then .error .empty
  else if name.utf8ByteSize > 64 then .error (.tooLong name.utf8ByteSize)
  else
    match name.toList with
    | [] => .error .empty
    | first :: _ =>
      if first.isAlphanum && first != '_' then .error (.invalidStart first)
      else
        match findInvalidChar name.toList 0 with
        | some (c, i) => .error (.invalidCharacter c i)
        | none =>
          if lowerCodes name ∈ reservedNames.map lowerCodes then
            .error (.reserved name)
          else .ok ()

end TableName

namespace RowKey

/-- `RowKey::validate`. -/
def validate (key : String) : Except InvalidNameError Unit :=
  if key.isEmpty then .error .empty
  else if key.utf8ByteSize > 128 then .error (.tooLong key.utf8ByteSize)
  else
    match findInvalidChar key.toList 0 with
    | some (c, i) => .error (.invalidCharacter c i)
    | none => .ok ()

end RowKey

/-- Kernel-computable `String.startsWith`. -/
def strStarts (s p : String) : Bool := p.toList.isPrefixOf s.toList

/-- Kernel-computable `String.endsWith`. -/
def strEnds (s p : String) : Bool := p.toList.isSuffixOf s.toList

/-- Kernel-computable `String.drop`. -/
def strDrop (s : String) (n : Nat) : String := String.mk (s.toList.drop n)

/-- Lexicographic (codepoint) order on character lists: the order Rust
`str::cmp` induces on valid UTF-8. -/
def codeListLt : List Char → List Char → Bool
  | [], [] => false
  | [], _ :: _ => true
  | _ :: _, [] => false
  | a :: as, b :: bs => a < b || (a == b && codeListLt as bs)

/-- Codepoint order on strings. -/
def strLt (a b : String) : Bool := codeListLt a.toList b.toList

namespace BranchName

/-- Whether a list of characters contains two consecutive dots. -/
def hasDotDot : List Char → Bool
  | '.' :: '.' :: _ => true
  | _ :: rest => hasDotDot rest
  | [] => false

/-- `BranchName::new`, as a boolean validity test. -/
def valid (name : String) : Bool :=
  !name.isEmpty && !(hasDotDot name.toList) && !(strEnds name "/") &&
    !(strStarts name "/")

/-- `BranchName::for_transaction`. -/
def forTransaction (txId : String) : String := "tx/" ++ txId

/-- `BranchName::transaction_id`. -/
def transactionId (name : String) : Option String :=
  if strStarts name "tx/" then some (strDrop name 3) else none

end BranchName

example : TableName.validate "users" = .error (.invalidStart 'u') := by decide
example : TableName.validate "_schemas" = .ok () := by decide
example : TableName.validate "_schema" = .error (.reserved "_schema") := by decide
example : TableName.validate "_private" = .ok () := by decide
example : RowKey.validate "user1" = .ok () := by decide
example : BranchName.transactionId "tx/abc" = some "abc" := by decide

/-! ## src/catalog/types.rs: data types, constraints, column definitions -/

/-- `DataType` from src/catalog/types.rs. -/
inductive DataType where
  | text
  | integer
  | float
  | boolean
  | json
  | timestamp
  | uuid
deriving DecidableEq, Repr

/-- All characters are ASCII digits. -/
def allDigits (cs : List Char) : Bool := cs.all Char.isDigit

/-- Shape of an RFC 3339 numeric offset or Z suffix. -/
def offsetShape : List Char → Bool
  | ['Z'] => true
  | ['+', a, b, ':', c, d] => allDigits [a, b, c, d]
  | ['-', a, b, ':', c, d] => allDigits [a, b, c, d]
  | _ => false

/-- Optional fractional seconds followed by an offset. -/
def fracThenOffset : List Char → Bool
  | '.' :: rest =>
    let digs := rest.takeWhile Char.isDigit
    !digs.isEmpty && offsetShape (rest.dropWhile Char.isDigit)
  | rest => offsetShape rest

/-- Modelled std (chrono `DateTime::parse_from_rfc3339`): shape check of an
RFC 3339 timestamp; calendar range validation is not modelled. -/
def rfc3339Parses (s : String) : Bool :=
  match s.toList with
  | y1 :: y2 :: y3 :: y4 :: '-' :: m1 :: m2 :: '-' :: d1 :: d2 :: 'T' ::
      h1 :: h2 :: ':' :: n1 :: n2 :: ':' :: s1 :: s2 :: rest =>
    allDigits [y1, y2, y3, y4, m1, m2, d1, d2, h1, h2, n1, n2, s1, s2] &&
      fracThenOffset rest
  | _ => false

/-- Modelled std (chrono `NaiveDateTime::parse_from_str` with format
`%Y-%m-%dT%H:%M:%S`): shape check; calendar ranges are not modelled. -/
def naiveParses (s : String) : Bool :=
  match s.toList with
  | [y1, y2, y3, y4, '-', m1, m2, '-', d1, d2, 'T',
      h1, h2, ':', n1, n2, ':', s1, s2] =>
    allDigits [y1, y2, y3, y4, m1, m2, d1, d2, h1, h2, n1, n2, s1, s2]
  | _ => false

namespace DataType

/-- `DataType::matches`: no arm accepts `Value::Null`, so the catch-all
returns false for explicit nulls whatever the data type. -/
def matchesVal : DataType → Json → Bool
  | .text, .str _ => true
  | .integer, .num n => n.isI64 || n.isU64
  | .float, .num _ => true
  | .boolean, .bool _ => true
  | .json, .obj _ => true
  | .json, .arr _ => true
  | .timestamp, .str s => rfc3339Parses s || naiveParses s
  | .uuid, .str s =>
    s.utf8ByteSize == 36 && (s.toList.filter (fun c => c == '-')).length == 4
  | _, _ => false

/-- `DataType::sql_name`. -/
def sqlName : DataType → String
  | .text => "TEXT"
  | .integer => "INTEGER"
  | .float => "REAL"
  | .boolean => "BOOLEAN"
  | .json => "JSON"
  | .timestamp => "TIMESTAMP"
  | .uuid => "UUID"

end DataType

/-- `Constraint` from src/catalog/types.rs. -/
inductive Constraint where
  | notNull
  | unique
  | primaryKey
  | default (v : Json)
  | check (expr : String)
deriving DecidableEq

namespace Constraint

/-- `Constraint::is_not_null`. -/
def isNotNull : Constraint → Bool
  | .notNull => true
  | .primaryKey => true
  | _ => false

/-- `Constraint::is_unique`. -/
def isUnique : Constraint → Bool
  | .unique => true
  | .primaryKey => true
  | _ => false

end Constraint

/-- `ColumnDef` from src/catalog/types.rs. -/
structure ColumnDef where
  name : String
  dataType : DataType
  constraints : List Constraint
  description : Option String
deriving DecidableEq

/-- Structured form of the `Err(String)` values `ColumnDef::validate`
produces (the Rust code formats these as message strings). -/
inductive ColumnValidateErr where
  | typeMismatch (column : String) (expected : DataType)
  | cannotBeNull (column : String)
deriving DecidableEq

namespace ColumnDef

/-- `ColumnDef::is_nullable`. -/
def isNullable (c : ColumnDef) : Bool := !(c.constraints.any Constraint.isNotNull)

/-- `ColumnDef::is_unique`. -/
def isUniqueCol (c : ColumnDef) : Bool := c.constraints.any Constraint.isUnique

/-- `ColumnDef::default_value`. -/
def defaultValue (c : ColumnDef) : Option Json :=
  c.constraints.findSome? fun con =>
    match con with
    | .default v => some v
    | _ => none

/-- `ColumnDef::validate`. -/
def validate (c : ColumnDef) (value : Option Json) : Except ColumnValidateErr Unit :=
  match value with
  | some v =>
    if !(c.dataType.matchesVal v) then .error (.typeMismatch c.name c.dataType)
    else .ok ()
  | none =>
    if !c.isNullable && c.defaultValue.isNone then .error (.cannotBeNull c.name)
    else .ok ()

end ColumnDef

/-! ## Error enums (src/storage/errors.rs, src/catalog/schema.rs,
src/transaction/error.rs).  Payloads that Rust renders into strings keep
their structured form here. -/

/-- `StorageError`. -/
inductive StorageError where
  | git (msg : String)
  | rowNotFound (table key : String)
  | tableNotFound (table : String)
  | rowAlreadyExists (table key : String)
  | tableAlreadyExists (table : String)
  | invalidTableName (e : InvalidNameError)
  | serialization (msg : String)
  | refNotFound (name : String)
  | mergeConflict (paths : List String)
  | corruptedData (path reason : String)
  | notInitialized
  | emptyRepository
  | commitNotFound (id : Nat)
  | unexpectedEntryType (path expected found : String)
  | branchAlreadyExists (name : String)
  | concurrentModification (branch : String)
  | schemaViolation (msg : String)
  | internal (msg : String)
deriving DecidableEq

/-- `SchemaError` from src/catalog/schema.rs.  The Rust `Storage` variant
carries a stringified error; the structured error is kept. -/
inductive SchemaError where
  | duplicateColumn (c : String)
  | invalidPrimaryKey (c : String)
  | columnNotFound (c : String)
  | cannotRemovePrimaryKey (c : String)
  | invalidRow (e : ColumnValidateErr)
  | invalidRowMsg (msg : String)
  | tableExists (t : String)
  | tableNotFound (t : String)
  | versionMismatch (expected found : Nat)
  | storage (e : StorageError)
  | storageName (e : InvalidNameError)
deriving DecidableEq

/-- `TransactionError` (variants the transaction code can produce). -/
inductive TransactionError where
  | storage (e : StorageError)
  | conflict (paths : List String)
  | notActive (txId state : String)
  | notFound (txId : String)
  | invalidOperation (msg : String)
  | internal (msg : String)
deriving DecidableEq

/-- `ExecuteError` from src/executor/error.rs (the `Parse` wrapper is not
modelled: statements enter the model already parsed). -/
inductive ExecuteError where
  | storage (e : StorageError)
  | schema (e : SchemaError)
  | transaction (e : TransactionError)
  | invalidName (e : InvalidNameError)
  | tableNotFound (t : String)
  | columnNotFound (c : String)
  | typeMismatch (expected actual : String)
  | nullValue (c : String)
  | duplicateKey (k : String)
  | missingColumn (c : String)
  | invalidExpression (msg : String)
  | divisionByZero
  | noTransaction
  | internal (msg : String)
deriving DecidableEq

/-! ## src/sql/ast.rs: the parsed-expression tree the evaluator consumes -/

/-- `BinaryOperator`. -/
inductive BinaryOperator where
  | eq
  | notEq
  | lt
  | ltEq
  | gt
  | gtEq
  | and
  | or
  | plus
  | minus
  | multiply
  | divide
  | modulo
  | concat
deriving DecidableEq, Repr

/-- `UnaryOperator`. -/
inductive UnaryOperator where
  | not
  | minus
  | plus
deriving DecidableEq, Repr

/-- `LiteralValue`. -/
inductive LiteralValue where
  | null
  | boolean (b : Bool)
  | integer (i : ℤ)
  | float (q : ℚ)
  | string (s : String)
  | json (v : Json)
deriving DecidableEq

/-- `LiteralValue::to_json`. -/
def LiteralValue.toJson : LiteralValue → Json
  | .null => .null
  | .boolean b => .bool b
  | .integer i => .num (.int i)
  | .float q => (numFromF64 (.fin q)).map Json.num |>.getD .null
  | .string s => .str s
  | .json v => v

/-- `Expr`. -/
inductive Expr where
  | column (name : String)
  | literal (lit : LiteralValue)
  | binaryOp (left : Expr) (op : BinaryOperator) (right : Expr)
  | unaryOp (op : UnaryOperator) (expr : Expr)
  | isNull (expr : Expr) (negated : Bool)
  | inList (expr : Expr) (list : List Expr) (negated : Bool)
  | between (expr : Expr) (low high : Expr) (negated : Bool)
  | like (expr : Expr) (pattern : String) (negated : Bool)
  | function (name : String) (args : List Expr)
  | nested (inner : Expr)

/-! ## src/executor/eval.rs: expression evaluation -/

/-- Digit scan used by the float-parse model: accumulated value, number of
digits consumed, and the rest. -/
def takeDigits : ℕ → ℕ → List Char → ℕ × ℕ × List Char
  | acc, n, c :: cs =>
    if c.isDigit then takeDigits (10 * acc + (c.toNat - 48)) (n + 1) cs
    else (acc, n, c :: cs)
  | acc, n, [] => (acc, n, [])

/-- Modelled std: Rust `str::parse::<f64>`.  Accepts an optional sign, the
keywords inf/infinity/nan (case-insensitive), or decimal digits with
optional fraction and exponent; the exact IEEE rounding (and underflow to
zero) of the decimal value is not modelled. -/
def parseF64 (s : String) : Option F64 :=
  let cs := s.toList.map fun c => Char.ofNat (lowerCode c.toNat)
  let (sgn, rest) : ℤ × List Char :=
    match cs with
    | '+' :: r => (1, r)
    | '-' :: r => (-1, r)
    | r => (1, r)
  if rest = ['i', 'n', 'f'] ∨ rest = ['i', 'n', 'f', 'i', 'n', 'i', 't', 'y'] then
    some (if sgn = 1 then .inf else .negInf)
  else if rest = ['n', 'a', 'n'] then some .nan
  else
    let (ip, ni, r1) := takeDigits 0 0 rest
    let (fp, nf, r2) :=
      match r1 with
      | '.' :: r => takeDigits 0 0 r
      | r => (0, 0, r)
    if ni + nf = 0 then none
    else
      let mant : ℚ := mkRat (sgn * Int.ofNat (ip * 10 ^ nf + fp)) (10 ^ nf)
      match r2 with
      | [] => some (clampFin mant)
      | 'e' :: r3 =>
        let (esgn, r4) : ℤ × List Char :=
          match r3 with
          | '+' :: r => (1, r)
          | '-' :: r => (-1, r)
          | r => (1, r)
        let (ev, ne, r5) := takeDigits 0 0 r4
        if ne = 0 ∨ r5 ≠ [] then none
        else if esgn = 1 then
          some (clampFin (qMul mant (mkRat (Int.ofNat (10 ^ ev)) 1)))
        else some (clampFin (qDiv mant (mkRat (Int.ofNat (10 ^ ev)) 1)))
      | _ => none

namespace Json

/-- `Value::is_null`. -/
def isNull : Json → Bool
  | .null => true
  | _ => false

/-- `Value::as_str`. -/
def asStr : Json → Option String
  | .str s => some s
  | _ => none

/-- `Value::is_i64`. -/
def isI64Val : Json → Bool
  | .num n => n.isI64
  | _ => false

end Json

/-- `value_to_bool`. -/
def value_to_bool : Json → Bool
  | .bool b => b
  | .null => false
  | .num n => match n.asF64 with | .fin q => decide (¬ q = 0) | _ => false
  | .str s => !s.isEmpty
  | .arr a => !a.isEmpty
  | .obj o => !o.isEmpty

/-- `value_to_f64`. -/
def value_to_f64 : Json → F64
  | .num n => n.asF64
  | .str s => (parseF64 s).getD (.fin 0)
  | .bool b => if b then .fin 1 else .fin 0
  | _ => .fin 0

mutual

/-- Compact JSON rendering (model of serde_json `Value::to_string`; string
escaping and the shortest-float rendering are not modelled). -/
def renderJson : Json → String
  | .null => "null"
  | .bool true => "true"
  | .bool false => "false"
  | .num (.int i) => toString i
  | .num (.float q) => toString q.num ++ "e" ++ toString q.den
  | .str s => "\"" ++ s ++ "\""
  | .arr xs => "[" ++ renderJsonList xs ++ "]"
  | .obj fs => "\x7b" ++ renderJsonFields fs ++ "\x7d"

/-- Rendering of array elements. -/
def renderJsonList : List Json → String
  | [] => ""
  | [x] => renderJson x
  | x :: rest => renderJson x ++ "," ++ renderJsonList rest

/-- Rendering of object fields. -/
def renderJsonFields : List (String × Json) → String
  | [] => ""
  | [(k, v)] => "\"" ++ k ++ "\":" ++ renderJson v
  | (k, v) :: rest => "\"" ++ k ++ "\":" ++ renderJson v ++ "," ++ renderJsonFields rest

end

/-- `value_to_string`. -/
def value_to_string : Json → String
  | .str s => s
  | .null => ""
  | v => renderJson v

/-- `values_equal`: numbers compare as doubles within `f64::EPSILON`. -/
def values_equal : Json → Json → Bool
  | .null, .null => true
  | .bool a, .bool b => a == b
  | .num a, .num b =>
    match a.asF64, b.asF64 with
    | .fin x, .fin y => decide (qAbs (qSub x y) < mkRat 1 4503599627370496)
    | _, _ => false
  | .str a, .str b => a == b
  | _, _ => false

/-- `compare_values`: `none` for incomparable kinds. -/
def compare_values : Json → Json → Option ℤ
  | .num a, .num b =>
    match a.asF64, b.asF64 with
    | .fin x, .fin y => some (if x < y then -1 else if y < x then 1 else 0)
    | _, _ => some 0
  | .str a, .str b => some (if strLt a b then -1 else if strLt b a then 1 else 0)
  | .bool a, .bool b => some ((if a then 1 else 0) - (if b then 1 else 0))
  | _, _ => none

/-- `eval_arithmetic`: coerce both sides to doubles, apply `f`, return an
integer if both inputs were `i64` integers and the result is whole, else
the double (JSON null when it is NaN or infinite). -/
def eval_arithmetic (left right : Json) (f : F64 → F64 → F64) :
    Except ExecuteError Json :=
  let l := value_to_f64 left
  let r := value_to_f64 right
  let result := f l r
  if left.isI64Val && right.isI64Val && F64.beq result.fract (.fin 0) then
    .ok (.num (.int result.toI64))
  else
    .ok (((numFromF64 result).map Json.num).getD .null)

/-- `eval_binary_op`. -/
def eval_binary_op (left : Json) (op : BinaryOperator) (right : Json) :
    Except ExecuteError Json :=
  match op with
  | .eq => .ok (.bool (values_equal left right))
  | .notEq => .ok (.bool (!values_equal left right))
  | .lt => .ok (.bool (((compare_values left right).map (fun c => decide (c < 0))).getD false))
  | .ltEq => .ok (.bool (((compare_values left right).map (fun c => decide (c ≤ 0))).getD false))
  | .gt => .ok (.bool (((compare_values left right).map (fun c => decide (0 < c))).getD false))
  | .gtEq => .ok (.bool (((compare_values left right).map (fun c => decide (0 ≤ c))).getD false))
  | .and => .ok (.bool (value_to_bool left && value_to_bool right))
  | .or => .ok (.bool (value_to_bool left || value_to_bool right))
  | .plus => eval_arithmetic left right F64.add
  | .minus => eval_arithmetic left right F64.sub
  | .multiply => eval_arithmetic left right F64.mul
  | .divide =>
    let r := value_to_f64 right
    if F64.beq r (.fin 0) then .error .divisionByZero
    else eval_arithmetic left right F64.div
  | .modulo => eval_arithmetic left right F64.mod
  | .concat =>
    .ok (.str (value_to_string left ++ value_to_string right))

/-- `eval_unary_op`. -/
def eval_unary_op (op : UnaryOperator) (value : Json) : Except ExecuteError Json :=
  match op with
  | .not => .ok (.bool (!value_to_bool value))
  | .minus =>
    let n := value_to_f64 value
    if F64.beq n.fract (.fin 0) then .ok (.num (.int (F64.toI64 (F64.neg n))))
    else .ok (((numFromF64 (F64.neg n)).map Json.num).getD .null)
  | .plus => .ok value

/-- `match_like` from src/executor/eval.rs (index recursion rephrased over
suffixes; `%` ranges over every suffix including the empty one).  The Rust
per-character comparison is case-insensitive via `to_lowercase`; ASCII
lower-casing models it. -/
def matchLike : List Char → List Char → Bool
  | s, [] => s.isEmpty
  | s, '%' :: p => s.tails.any fun t => matchLike t p
  | s, '_' :: p =>
    match s with
    | [] => false
    | _ :: s1 => matchLike s1 p
  | s, c :: p =>
    match s with
    | [] => false
    | x :: s1 => (lowerCode x.toNat == lowerCode c.toNat) && matchLike s1 p

/-- `simple_like_match` (the entry point `like_match` builds and discards a
regex string and then delegates here). -/
def simple_like_match (s pattern : String) : Bool :=
  matchLike s.toList pattern.toList

/-- `eval_function` (case-insensitive dispatch).  `now()` is modelled as a
fixed timestamp: the evaluator is otherwise pure. -/
def eval_function (name : String) (args : List Json) : Except ExecuteError Json :=
  let lowerName := String.mk (name.toList.map fun c => Char.ofNat (lowerCode c.toNat))
  if lowerName == "count" then .ok (.num (.int 1))
  else if lowerName == "lower" then
    let s := ((args.head?.bind Json.asStr).getD "")
    .ok (.str (String.mk (s.toList.map fun c => Char.ofNat (lowerCode c.toNat))))
  else if lowerName == "upper" then
    let s := ((args.head?.bind Json.asStr).getD "")
    .ok (.str (String.mk (s.toList.map fun c =>
      Char.ofNat (if 97 ≤ c.toNat ∧ c.toNat ≤ 122 then c.toNat - 32 else c.toNat))))
  else if lowerName == "length" ∨ lowerName == "len" then
    .ok (.num (.int (Int.ofNat ((args.head?.bind Json.asStr).getD "").utf8ByteSize)))
  else if lowerName == "coalesce" then
    .ok (((args.find? fun a => !a.isNull).getD .null))
  else if lowerName == "now" ∨ lowerName == "current_timestamp" then
    .ok (.str "2026-01-01T00:00:00+00:00")
  else .error (.invalidExpression ("unknown function: " ++ name))

mutual

/-- `evaluate`: evaluate an expression against a row (ordered map of
column name to value). -/
def evaluate (e : Expr) (row : List (String × Json)) : Except ExecuteError Json :=
  match e with
  | .column name =>
    match List.lookup name row with
    | some v => .ok v
    | none => .error (.columnNotFound name)
  | .literal lit => .ok lit.toJson
  | .binaryOp l op r => do
    let lv ← evaluate l row
    let rv ← evaluate r row
    eval_binary_op lv op rv
  | .unaryOp op e1 => do
    let v ← evaluate e1 row
    eval_unary_op op v
  | .isNull e1 negated => do
    let v ← evaluate e1 row
    let b := v.isNull
    .ok (.bool (if negated then !b else b))
  | .inList e1 list negated => do
    let v ← evaluate e1 row
    let b := evalInAny v list row
    .ok (.bool (if negated then !b else b))
  | .between e1 lo hi negated => do
    let v ← evaluate e1 row
    let l ← evaluate lo row
    let h ← evaluate hi row
    let inRange :=
      (((compare_values v l).map fun c => decide (0 ≤ c)).getD false) &&
        (((compare_values v h).map fun c => decide (c ≤ 0)).getD false)
    .ok (.bool (if negated then !inRange else inRange))
  | .like e1 pattern negated => do
    let v ← evaluate e1 row
    let s := (v.asStr).getD ""
    let b := simple_like_match s pattern
    .ok (.bool (if negated then !b else b))
  | .function name args => do
    let vs ← evalArgs args row
    eval_function name vs
  | .nested inner => evaluate inner row

/-- The `any` fold of `InList` evaluation: evaluation errors on a list
item count as a non-match. -/
def evalInAny (v : Json) (list : List Expr) (row : List (String × Json)) : Bool :=
  match list with
  | [] => false
  | item :: rest =>
    (match evaluate item row with
     | .ok iv => values_equal v iv
     | .error _ => false) ||
      evalInAny v rest row

/-- Evaluation of a function-argument list, propagating the first error. -/
def evalArgs (args : List Expr) (row : List (String × Json)) :
    Except ExecuteError (List Json) :=
  match args with
  | [] => .ok []
  | a :: rest => do
    let v ← evaluate a row
    let vs ← evalArgs rest row
    .ok (v :: vs)

end

/-- `matches_where`. -/
def matches_where (e : Expr) (row : List (String × Json)) : Except ExecuteError Bool :=
  (evaluate e row).map value_to_bool

example : simple_like_match "Alice" "A%" = true := by decide
example : simple_like_match "Alice" "%lic%" = true := by decide
example : simple_like_match "Alice" "B%" = false := by decide
example : eval_binary_op (.num (.int 1)) .divide (.num (.int 0)) =
    .error .divisionByZero := by decide
example : eval_binary_op (.num (.int 1)) .modulo (.num (.int 0)) =
    .ok .null := by decide
example : eval_binary_op (.num (.int 30)) .plus (.num (.int 10)) =
    .ok (.num (.int 40)) := by decide
example : evaluate (.literal (.integer 5)) [] = .ok (.num (.int 5)) := by decide
example :
    evaluate (.binaryOp (.column "age") .gt (.literal (.integer 25)))
      [("age", .num (.int 30))] = .ok (.bool true) := by decide

/-! ## src/storage/blob.rs: rows and the row blob codec -/

/-- `BTreeMap::insert` on a key-sorted association list. -/
def btInsert (k : String) (v : Json) :
    List (String × Json) → List (String × Json)
  | [] => [(k, v)]
  | (k2, v2) :: rest =>
    if strLt k k2 then (k, v) :: (k2, v2) :: rest
    else if k == k2 then (k, v) :: rest
    else (k2, v2) :: btInsert k v rest

/-- `Row` from src/storage/blob.rs.  `data` is the `BTreeMap` of column
values as a key-sorted association list. -/
structure Row where
  key : String
  version : Nat
  createdAt : String
  updatedAt : String
  data : List (String × Json)
deriving DecidableEq

/-- `Row::new`: version 1, both timestamps set to the current time. -/
def Row.mkNew (key : String) (data : List (String × Json)) (now : String) : Row :=
  ⟨key, 1, now, now, data⟩

/-- The reserved metadata field names of the row blob format. -/
def metaKeys : List String := ["_pk", "_version", "_created_at", "_updated_at"]

/-- `serialize_row`: the serialized blob, abstracted from bytes to the
sequence of JSON object entries the serializer emits (metadata fields
first, then the `#[serde(flatten)]` data map in key order; the
pretty-printed rendering is deterministic, so byte equality of blobs is
equality of these sequences). -/
def serialize_row (r : Row) : List (String × Json) :=
  [("_pk", .str r.key), ("_version", .num (.int (Int.ofNat r.version))),
    ("_created_at", .str r.createdAt), ("_updated_at", .str r.updatedAt)]
    ++ r.data

/-- Parse state for the serde-derived `RowJson` deserializer. -/
structure RowJsonAcc where
  pk : Option String
  version : Option Nat
  createdAt : Option String
  updatedAt : Option String
  data : List (String × Json)
deriving DecidableEq

/-- Entry loop of the serde-derived deserializer for `RowJson`: each named
field may occur at most once (serde rejects duplicate known fields), type
mismatches fail, all other keys are collected into the flattened
`BTreeMap` (where a later duplicate overwrites). -/
def parseRowEntries :
    List (String × Json) → RowJsonAcc → Except StorageError RowJsonAcc
  | [], acc => .ok acc
  | (k, v) :: rest, acc =>
    if k == "_pk" then
      if acc.pk.isSome then .error (.serialization "duplicate field _pk")
      else
        match v with
        | .str s => parseRowEntries rest { acc with pk := some s }
        | _ => .error (.serialization "invalid type for _pk")
    else if k == "_version" then
      if acc.version.isSome then .error (.serialization "duplicate field _version")
      else
        match v with
        | .num (.int i) =>
          if 0 ≤ i ∧ i < 2 ^ 64 then
            parseRowEntries rest { acc with version := some i.toNat }
          else .error (.serialization "invalid value for _version")
        | _ => .error (.serialization "invalid type for _version")
    else if k == "_created_at" then
      if acc.createdAt.isSome then
        .error (.serialization "duplicate field _created_at")
      else
        match v with
        | .str s => parseRowEntries rest { acc with createdAt := some s }
        | _ => .error (.serialization "invalid type for _created_at")
    else if k == "_updated_at" then
      if acc.updatedAt.isSome then
        .error (.serialization "duplicate field _updated_at")
      else
        match v with
        | .str s => parseRowEntries rest { acc with updatedAt := some s }
        | _ => .error (.serialization "invalid type for _updated_at")
    else parseRowEntries rest { acc with data := btInsert k v acc.data }

/-- `deserialize_row`: parse the blob, check `_pk` against the expected
key, fail `CorruptedData` on mismatch. -/
def deserialize_row (entries : List (String × Json)) (expectedKey : String) :
    Except StorageError Row := do
  let acc ← parseRowEntries entries ⟨none, none, none, none, []⟩
  match acc.pk, acc.version, acc.createdAt, acc.updatedAt with
  | some pk, some ver, some ca, some ua =>
    if pk ≠ expectedKey then
      .error (.corruptedData (expectedKey ++ ".json")
        ("primary key mismatch: file name suggests " ++ expectedKey ++
          " but content has " ++ pk))
    else .ok ⟨expectedKey, ver, ca, ua, acc.data⟩
  | _, _, _, _ => .error (.serialization "missing field")

/-- `write_blob` writes `serialize_row` bytes into the content-addressed
store; with structural content addressing the blob id is the content. -/
def write_blob (r : Row) : List (String × Json) := serialize_row r

example :
    deserialize_row (serialize_row (Row.mkNew "a" [("x", .num (.int 2))] "t")) "a" =
      .ok (Row.mkNew "a" [("x", .num (.int 2))] "t") := by decide
example :
    deserialize_row (serialize_row (Row.mkNew "a" [] "t")) "b" =
      .error (.corruptedData "b.json"
        "primary key mismatch: file name suggests b but content has a") := by decide

/-! ## src/storage/tree.rs, commit.rs, refs.rs, repository.rs: the engine

A git tree is modelled structurally: the root tree maps names to table
subtrees, a table subtree maps `<key>.json` filenames to row blobs.  Tree
entries are name-sorted, as git stores them.  Commits are numbered
sequentially by the store (the model of content-addressed commit ids);
branches map ref names to commit numbers.
-/

/-- A row blob (its serialized entry sequence; see `serialize_row`). -/
abbrev Blob := List (String × Json)

/-- Sorted-insert into a name-sorted entry list (git tree builders and
`BTreeMap`s keep entries sorted; insert replaces an existing name). -/
def sInsert {α : Type _} (k : String) (v : α) :
    List (String × α) → List (String × α)
  | [] => [(k, v)]
  | (k2, v2) :: rest =>
    if strLt k k2 then (k, v) :: (k2, v2) :: rest
    else if k == k2 then (k, v) :: rest
    else (k2, v2) :: sInsert k v rest

/-- Remove a name from an entry list. -/
def sRemove {α : Type _} (k : String) :
    List (String × α) → List (String × α)
  | [] => []
  | (k2, v2) :: rest => if k == k2 then sRemove k rest else (k2, v2) :: sRemove k rest

/-- A table subtree: `<key>.json` → row blob. -/
abbrev TableDir := List (String × Blob)

/-- A root tree: table name → subtree. -/
abbrev Tree := List (String × TableDir)

/-- `TreeMutator::create_table` followed by `write`. -/
def treeCreateTable (t : Tree) (name : String) : Except StorageError Tree :=
  if (List.lookup name t).isSome then .error (.tableAlreadyExists name)
  else .ok (sInsert name [] t)

/-- `TreeMutator::drop_table` followed by `write`. -/
def treeDropTable (t : Tree) (name : String) : Except StorageError Tree :=
  if (List.lookup name t).isNone then .error (.tableNotFound name)
  else .ok (sRemove name t)

/-- `TreeMutator::upsert_row` followed by `write`. -/
def treeUpsertRow (t : Tree) (name key : String) (blob : Blob) :
    Except StorageError Tree :=
  match List.lookup name t with
  | none => .error (.tableNotFound name)
  | some dir => .ok (sInsert name (sInsert (key ++ ".json") blob dir) t)

/-- `TreeMutator::delete_row` followed by `write`. -/
def treeDeleteRow (t : Tree) (name key : String) : Except StorageError Tree :=
  match List.lookup name t with
  | none => .error (.tableNotFound name)
  | some dir =>
    if (List.lookup (key ++ ".json") dir).isNone then .error (.rowNotFound name key)
    else .ok (sInsert name (sRemove (key ++ ".json") dir) t)

/-- `TreeHandle::list_tables`: subtree entries whose name does not start
with an underscore and passes `TableName` validation. -/
def treeListTables (t : Tree) : List String :=
  t.filterMap fun e =>
    if strStarts e.1 "_" then none
    else
      match TableName.validate e.1 with
      | .ok _ => some e.1
      | .error _ => none

/-- `TreeHandle::table_exists`. -/
def treeTableExists (t : Tree) (name : String) : Bool :=
  (List.lookup name t).isSome

/-- Strip a trailing `.json` from a filename. -/
def stripJsonSuffix (fname : String) : Option String :=
  if strEnds fname ".json" then
    some (String.mk (fname.toList.take (fname.toList.length - 5)))
  else none

/-- `TreeHandle::list_rows`: keys of the blob entries of a table subtree,
stripping the `.json` suffix and keeping only valid row keys. -/
def treeListRows (t : Tree) (table : String) : Except StorageError (List String) :=
  match List.lookup table t with
  | none => .error (.tableNotFound table)
  | some dir =>
    .ok (dir.filterMap fun e =>
      match stripJsonSuffix e.1 with
      | none => none
      | some k =>
        match RowKey.validate k with
        | .ok _ => some k
        | .error _ => none)

/-- `TreeHandle::get_row_blob_id`: with structural content addressing the
blob id is the blob content. -/
def treeGetRowBlob (t : Tree) (table key : String) :
    Except StorageError (Option Blob) :=
  match List.lookup table t with
  | none => .error (.tableNotFound table)
  | some dir => .ok (List.lookup (key ++ ".json") dir)

/-- `TreeHandle::row_exists`. -/
def treeRowExists (t : Tree) (table key : String) : Except StorageError Bool :=
  (treeGetRowBlob t table key).map Option.isSome

/-- `ChangeStatus` from src/storage/types.rs. -/
inductive ChangeStatus where
  | added
  | deleted
  | modified
  | renamed
  | copied
  | other
deriving DecidableEq

/-- A commit object: root tree, parent ids, message. -/
structure CommitObj where
  tree : Tree
  parents : List Nat
  message : String
deriving DecidableEq

/-- The repository: the store of commits (a commit id is the index at
which the commit was appended) and the branch references. -/
structure RepoState where
  commits : List CommitObj
  branches : List (String × Nat)
deriving DecidableEq

/-- `get_tree_at_commit`. -/
def getTreeAtCommit (s : RepoState) (c : Nat) : Except StorageError Tree :=
  match s.commits.get? c with
  | some obj => .ok obj.tree
  | none => .error (.commitNotFound c)

/-- `CommitBuilder::commit` with no ref update: append the commit object
to the store and return its id. -/
def mkCommit (s : RepoState) (tree : Tree) (parents : List Nat) (msg : String) :
    RepoState × Nat :=
  ({ s with commits := s.commits ++ [⟨tree, parents, msg⟩] }, s.commits.length)

/-! `RefManager` from src/storage/refs.rs. -/

/-- `RefManager::resolve_branch`. -/
def resolveBranch (s : RepoState) (branch : String) : Except StorageError Nat :=
  match List.lookup branch s.branches with
  | some c => .ok c
  | none => .error (.refNotFound branch)

/-- `RefManager::head_commit` (HEAD points at main). -/
def headCommit (s : RepoState) : Except StorageError Nat :=
  match List.lookup "main" s.branches with
  | some c => .ok c
  | none => .error .emptyRepository

/-- `RefManager::branch_exists`. -/
def branchExists (s : RepoState) (branch : String) : Bool :=
  (List.lookup branch s.branches).isSome

/-- `RefManager::create_branch`. -/
def createBranch (s : RepoState) (branch : String) (target : Nat) :
    Except StorageError RepoState :=
  if branchExists s branch then .error (.branchAlreadyExists branch)
  else if (s.commits.get? target).isNone then .error (.git "find_commit")
  else .ok { s with branches := s.branches ++ [(branch, target)] }

/-- `RefManager::update_branch` (force update of an existing ref). -/
def updateBranch (s : RepoState) (branch : String) (target : Nat) :
    Except StorageError RepoState :=
  if !branchExists s branch then .error (.refNotFound branch)
  else if (s.commits.get? target).isNone then .error (.git "set_target")
  else
    .ok { s with
      branches := s.branches.map fun e => if e.1 == branch then (e.1, target) else e }

/-- `RefManager::update_branch_if_unchanged` (the compare-and-swap). -/
def updateBranchIfUnchanged (s : RepoState) (branch : String)
    (expected target : Nat) : Except StorageError RepoState := do
  let current ← resolveBranch s branch
  if current ≠ expected then .error (.concurrentModification branch)
  else updateBranch s branch target

/-- `RefManager::delete_branch`. -/
def deleteBranch (s : RepoState) (branch : String) :
    Except StorageError RepoState :=
  if !branchExists s branch then .error (.refNotFound branch)
  else .ok { s with branches := s.branches.filter fun e => !(e.1 == branch) }

/-- `RefManager::list_branches` with an optional prefix filter; names that
fail `BranchName` validation are silently skipped. -/
def listBranches (s : RepoState) (pre : Option String) : List String :=
  s.branches.filterMap fun e =>
    let keep :=
      match pre with
      | some p => strStarts e.1 p
      | none => true
    if keep && BranchName.valid e.1 then some e.1 else none

/-- `RefManager::list_transaction_branches`. -/
def listTransactionBranches (s : RepoState) : List String :=
  listBranches s (some "tx/")

/-- `RefManager::create_transaction_branch`. -/
def createTransactionBranch (s : RepoState) (txId : String) (base : Nat) :
    Except StorageError (RepoState × String) :=
  let branch := BranchName.forTransaction txId
  (createBranch s branch base).map fun s2 => (s2, branch)

/-- `RefManager::delete_transaction_branch`. -/
def deleteTransactionBranch (s : RepoState) (txId : String) :
    Except StorageError RepoState :=
  deleteBranch s (BranchName.forTransaction txId)

/-- `RefManager::cleanup_abandoned_transactions`: deletes every tx branch
(the source comment says a production version would consult the active
set, this one does not). -/
def refCleanupAbandoned (s : RepoState) : RepoState × Nat :=
  (listTransactionBranches s).foldl
    (fun (acc : RepoState × Nat) name =>
      match BranchName.transactionId name with
      | some txId =>
        match deleteTransactionBranch acc.1 txId with
        | .ok s2 => (s2, acc.2 + 1)
        | .error _ => acc
      | none => acc)
    (s, 0)

/-! Commit DAG utilities from src/storage/commit.rs. -/

/-- Row paths of a tree (`table/<key>.json` → blob); empty directories
contribute nothing, as in git diffs. -/
def flattenTree (t : Tree) : List (String × Blob) :=
  (t.map fun e => e.2.map fun f => (e.1 ++ "/" ++ f.1, f.2)).flatten

/-- `diff_commits` by tree comparison: added, modified and deleted row
paths (content addressing makes blob equality content equality).  The
model lists additions and modifications in new-tree order followed by
deletions; only the set of changed paths is relied upon. -/
def diffCommits (s : RepoState) (oldC newC : Nat) :
    Except StorageError (List (String × ChangeStatus)) := do
  let oldTree ← getTreeAtCommit s oldC
  let newTree ← getTreeAtCommit s newC
  let olds := flattenTree oldTree
  let news := flattenTree newTree
  let addedOrModified := news.filterMap fun e =>
    match List.lookup e.1 olds with
    | none => some (e.1, ChangeStatus.added)
    | some b => if b = e.2 then none else some (e.1, ChangeStatus.modified)
  let deleted := olds.filterMap fun e =>
    if (List.lookup e.1 news).isNone then some (e.1, ChangeStatus.deleted) else none
  .ok (addedOrModified ++ deleted)

/-- Commits reachable from `c` (fuel-bounded walk of the parent DAG). -/
def ancestorSet (s : RepoState) : Nat → Nat → List Nat
  | 0, _ => []
  | fuel + 1, c =>
    let ps := ((s.commits.get? c).map CommitObj.parents).getD []
    c :: (ps.map (ancestorSet s fuel)).flatten

/-- `find_merge_base`: the nearest common ancestor.  Commit ids are
allocated in topological order (a parent precedes its children), so among
the common ancestors of two commits the nearest one carries the largest
id for every history this engine builds. -/
def findMergeBase (s : RepoState) (a b : Nat) : Option Nat :=
  let fuel := s.commits.length + 1
  let aAnc := ancestorSet s fuel a
  let common := (ancestorSet s fuel b).filter fun c => c ∈ aAnc
  match common with
  | [] => none
  | c :: rest => some (rest.foldl Nat.max c)

/-- `detect_conflicts` from src/storage/commit.rs: paths changed on both
sides since the merge base. -/
def detectConflictsAt (s : RepoState) (ours theirs : Nat) :
    Except StorageError (List String) := do
  match findMergeBase s ours theirs with
  | none => .error (.internal "no common ancestor found for conflict detection")
  | some base =>
    let ourChanges ← diffCommits s base ours
    let theirChanges ← diffCommits s base theirs
    let ourPaths := ourChanges.map Prod.fst
    .ok ((theirChanges.filter fun c => c.1 ∈ ourPaths).map Prod.fst)

/-! Commit message templates (`CommitMessage`). -/

/-- Optional ` tx:<id>` suffix. -/
def txSuffix : Option String → String
  | some id => " tx:" ++ id
  | none => ""

/-- `CommitMessage::insert`. -/
def msgInsert (table key : String) (txId : Option String) : String :=
  "[INSERT] " ++ table ++ "/" ++ key ++ txSuffix txId

/-- `CommitMessage::update`. -/
def msgUpdate (table key : String) (txId : Option String) : String :=
  "[UPDATE] " ++ table ++ "/" ++ key ++ txSuffix txId

/-- `CommitMessage::delete`. -/
def msgDelete (table key : String) (txId : Option String) : String :=
  "[DELETE] " ++ table ++ "/" ++ key ++ txSuffix txId

/-- `CommitMessage::create_table`. -/
def msgCreateTable (table : String) (txId : Option String) : String :=
  "[CREATE TABLE] " ++ table ++ txSuffix txId

/-- `CommitMessage::drop_table`. -/
def msgDropTable (table : String) (txId : Option String) : String :=
  "[DROP TABLE] " ++ table ++ txSuffix txId

/-! `GitRepository` high-level operations (src/storage/repository.rs).
Each mutation reads the tree at `atC`, stages the change, writes the new
tree and creates a commit whose sole parent is `atC`; no branch is
touched. -/

/-- `GitRepository::create_table`. -/
def repoCreateTable (s : RepoState) (table : String) (atC : Nat)
    (txId : Option String) : Except StorageError (RepoState × Nat) := do
  let tree ← getTreeAtCommit s atC
  let tree2 ← treeCreateTable tree table
  .ok (mkCommit s tree2 [atC] (msgCreateTable table txId))

/-- `GitRepository::drop_table`. -/
def repoDropTable (s : RepoState) (table : String) (atC : Nat)
    (txId : Option String) : Except StorageError (RepoState × Nat) := do
  let tree ← getTreeAtCommit s atC
  let tree2 ← treeDropTable tree table
  .ok (mkCommit s tree2 [atC] (msgDropTable table txId))

/-- `GitRepository::insert_row`. -/
def repoInsertRow (s : RepoState) (table : String) (row : Row) (atC : Nat)
    (txId : Option String) : Except StorageError (RepoState × Nat) := do
  let tree ← getTreeAtCommit s atC
  let exists2 ← treeRowExists tree table row.key
  if exists2 then .error (.rowAlreadyExists table row.key)
  else do
    let blob := write_blob row
    let tree2 ← treeUpsertRow tree table row.key blob
    .ok (mkCommit s tree2 [atC] (msgInsert table row.key txId))

/-- `GitRepository::update_row`. -/
def repoUpdateRow (s : RepoState) (table : String) (row : Row) (atC : Nat)
    (txId : Option String) : Except StorageError (RepoState × Nat) := do
  let tree ← getTreeAtCommit s atC
  let exists2 ← treeRowExists tree table row.key
  if !exists2 then .error (.rowNotFound table row.key)
  else do
    let blob := write_blob row
    let tree2 ← treeUpsertRow tree table row.key blob
    .ok (mkCommit s tree2 [atC] (msgUpdate table row.key txId))

/-- `GitRepository::upsert_row`. -/
def repoUpsertRow (s : RepoState) (table : String) (row : Row) (atC : Nat)
    (txId : Option String) : Except StorageError (RepoState × Nat) := do
  let tree ← getTreeAtCommit s atC
  let exists2 ← treeRowExists tree table row.key
  let blob := write_blob row
  let tree2 ← treeUpsertRow tree table row.key blob
  let message :=
    if exists2 then msgUpdate table row.key txId else msgInsert table row.key txId
  .ok (mkCommit s tree2 [atC] message)

/-- `GitRepository::delete_row`. -/
def repoDeleteRow (s : RepoState) (table key : String) (atC : Nat)
    (txId : Option String) : Except StorageError (RepoState × Nat) := do
  let tree ← getTreeAtCommit s atC
  let tree2 ← treeDeleteRow tree table key
  .ok (mkCommit s tree2 [atC] (msgDelete table key txId))

/-- `GitRepository::read_row`. -/
def repoReadRow (s : RepoState) (table key : String) (atC : Nat) :
    Except StorageError (Option Row) := do
  let tree ← getTreeAtCommit s atC
  match ← treeGetRowBlob tree table key with
  | none => .ok none
  | some blob => (deserialize_row blob key).map some

/-- `GitRepository::list_tables`. -/
def repoListTables (s : RepoState) (atC : Nat) :
    Except StorageError (List String) :=
  (getTreeAtCommit s atC).map treeListTables

/-- `GitRepository::table_exists`. -/
def repoTableExists (s : RepoState) (table : String) (atC : Nat) :
    Except StorageError Bool :=
  (getTreeAtCommit s atC).map fun t => treeTableExists t table

/-- `GitRepository::list_rows`. -/
def repoListRows (s : RepoState) (table : String) (atC : Nat) :
    Except StorageError (List String) := do
  let tree ← getTreeAtCommit s atC
  treeListRows tree table

/-- Read loop of `GitRepository::scan_table`. -/
def scanRows (tree : Tree) (table : String) :
    List String → Except StorageError (List Row)
  | [] => .ok []
  | k :: rest => do
    match ← treeGetRowBlob tree table k with
    | none => .error (.rowNotFound table k)
    | some blob => do
      let row ← deserialize_row blob k
      let rows ← scanRows tree table rest
      .ok (row :: rows)

/-- `GitRepository::scan_table`. -/
def repoScanTable (s : RepoState) (table : String) (atC : Nat) :
    Except StorageError (List Row) := do
  let tree ← getTreeAtCommit s atC
  let keys ← treeListRows tree table
  scanRows tree table keys

/-- `GitRepository::fast_forward_main`: CAS-update of main from
`expectedMain` to the tx-branch tip. -/
def repoFastForwardMain (s : RepoState) (txBranch : String)
    (expectedMain : Nat) : Except StorageError (RepoState × Nat) := do
  let txCommit ← resolveBranch s txBranch
  let s2 ← updateBranchIfUnchanged s "main" expectedMain txCommit
  .ok (s2, txCommit)

/-- `GitRepository::detect_conflicts`. -/
def repoDetectConflicts (s : RepoState) (txBranch : String) (mainHead : Nat) :
    Except StorageError (List String) := do
  let txCommit ← resolveBranch s txBranch
  detectConflictsAt s txCommit mainHead

/-- `RepositoryStats`. -/
structure RepositoryStats where
  tableCount : Nat
  totalRows : Nat
  branchCount : Nat
  activeTransactions : Nat
deriving DecidableEq, Repr

/-- Row-count loop of `GitRepository::stats`. -/
def countRowsLoop (tree : Tree) : List String → Except StorageError Nat
  | [] => .ok 0
  | t :: rest => do
    let keys ← treeListRows tree t
    let n ← countRowsLoop tree rest
    .ok (keys.length + n)

/-- `GitRepository::stats`: note `tables` comes from `list_tables`, which
skips every name that starts with an underscore. -/
def repoStats (s : RepoState) (atC : Nat) : Except StorageError RepositoryStats := do
  let tree ← getTreeAtCommit s atC
  let tables := treeListTables tree
  let totalRows ← countRowsLoop tree tables
  let branches := listBranches s none
  let txBranches := listTransactionBranches s
  .ok ⟨tables.length, totalRows, branches.length, txBranches.length⟩

/-- `create_initial_commit` + `init_main_branch`: the state of a freshly
initialized repository (`GitRepository::init`): one commit holding the
reserved empty `_schema` subtree, with main (= HEAD) pointing at it. -/
def initRepo : RepoState :=
  ⟨[⟨[("_schema", [])], [], "[gitdb] Initialize repository"⟩], [("main", 0)]⟩

/-! ## src/transaction: typestate context and the manager -/

/-- `IsolationLevel` (default `ReadCommitted`). -/
inductive IsolationLevel where
  | readCommitted
  | repeatableRead
deriving DecidableEq, Repr

/-- `TransactionMetadata` (the start timestamp is not modelled). -/
structure TransactionMetadata where
  txId : String
  branch : String
  baseCommit : Nat
  currentCommit : Nat
  isolation : IsolationLevel
deriving DecidableEq, Repr

/-- `let _ = self.repo.delete_transaction_branch(..)`: delete ignoring
the result. -/
def delTxIgnore (s : RepoState) (txId : String) : RepoState :=
  match deleteTransactionBranch s txId with
  | .ok s2 => s2
  | .error _ => s

/-- The fast-forward phase of `Transaction::<TxActive>::commit`: note the
CAS expects main still at `baseCommit`, so after any drift of main it
fails and the `ConcurrentModification` handler converts the (possibly
empty) conflict list into a `Conflict` error. -/
def txCommitFfwd (meta : TransactionMetadata) (s : RepoState) :
    RepoState × Except TransactionError Nat :=
  match repoFastForwardMain s meta.branch meta.baseCommit with
  | .ok (s2, _) => (delTxIgnore s2 meta.txId, .ok meta.currentCommit)
  | .error (.concurrentModification _) =>
    (match headCommit s with
     | .error e => (s, .error (.storage e))
     | .ok mainHead2 =>
       match repoDetectConflicts s meta.branch mainHead2 with
       | .error e => (s, .error (.storage e))
       | .ok conflicts => (delTxIgnore s meta.txId, .error (.conflict conflicts)))
  | .error e => (delTxIgnore s meta.txId, .error (.storage e))

/-- `Transaction::<TxActive>::commit`.  On success the returned commit id
is `final_commit()` of the committed transaction. -/
def txCommit (meta : TransactionMetadata) (s : RepoState) :
    RepoState × Except TransactionError Nat :=
  match headCommit s with
  | .error e => (s, .error (.storage e))
  | .ok mainHead =>
    if mainHead ≠ meta.baseCommit then
      match repoDetectConflicts s meta.branch mainHead with
      | .error e => (s, .error (.storage e))
      | .ok conflicts =>
        if conflicts ≠ [] then
          (delTxIgnore s meta.txId, .error (.conflict conflicts))
        else txCommitFfwd meta s
    else txCommitFfwd meta s

/-- `Transaction::<TxActive>::rollback`: delete the tx branch, ignoring
errors; always returns the aborted transaction. -/
def txRollback (meta : TransactionMetadata) (s : RepoState) : RepoState :=
  delTxIgnore s meta.txId

/-- A write operation inside an active transaction (`Transaction::insert`
etc.): run the engine mutation at `current_commit`, adopt the new commit,
force-update the tx branch. -/
def txMutate (meta : TransactionMetadata) (s : RepoState)
    (op : RepoState → Nat → Option String → Except StorageError (RepoState × Nat)) :
    Except TransactionError (RepoState × TransactionMetadata) :=
  match op s meta.currentCommit (some meta.txId) with
  | .error e => .error (.storage e)
  | .ok (s2, newCommit) =>
    match updateBranch s2 meta.branch newCommit with
    | .error e => .error (.storage e)
    | .ok s3 => .ok (s3, { meta with currentCommit := newCommit })

/-- `Transaction::insert`. -/
def txInsert (meta : TransactionMetadata) (s : RepoState) (table : String)
    (row : Row) : Except TransactionError (RepoState × TransactionMetadata) :=
  txMutate meta s fun st c tx => repoInsertRow st table row c tx

/-- `Transaction::create_table`. -/
def txCreateTable (meta : TransactionMetadata) (s : RepoState)
    (table : String) : Except TransactionError (RepoState × TransactionMetadata) :=
  txMutate meta s fun st c tx => repoCreateTable st table c tx

/-- `TransactionManager` state: repository plus the active-transaction
registry; `nextTx` models the ULID generator. -/
structure ManagerState where
  repo : RepoState
  active : List (String × TransactionMetadata)
  nextTx : Nat
deriving DecidableEq

/-- Model of `Ulid::new().to_string().to_lowercase()`: a fresh id from
the generator counter. -/
def genTxId (n : Nat) : String := "txid" ++ toString n

/-- `TransactionManager::begin_with_isolation` (and `begin` with the
default isolation). -/
def managerBegin (m : ManagerState) (iso : IsolationLevel) :
    Except TransactionError (ManagerState × TransactionMetadata) :=
  let txId := genTxId m.nextTx
  match headCommit m.repo with
  | .error e => .error (.storage e)
  | .ok base =>
    match createTransactionBranch m.repo txId base with
    | .error e => .error (.storage e)
    | .ok (repo2, branch) =>
      let meta : TransactionMetadata := ⟨txId, branch, base, base, iso⟩
      .ok ({ repo := repo2, active := m.active ++ [(txId, meta)],
             nextTx := m.nextTx + 1 }, meta)

/-- `TransactionManager::cleanup_abandoned`: snapshot the active ids,
list the tx branches, delete those whose id is not active, count the
successful deletions. -/
def managerCleanupAbandoned (m : ManagerState) : ManagerState × Nat :=
  let activeIds := m.active.map Prod.fst
  let result :=
    (listTransactionBranches m.repo).foldl
      (fun (acc : RepoState × Nat) name =>
        match BranchName.transactionId name with
        | some txId =>
          if txId ∈ activeIds then acc
          else
            match deleteTransactionBranch acc.1 txId with
            | .ok s2 => (s2, acc.2 + 1)
            | .error _ => acc
        | none => acc)
      (m.repo, 0)
  ({ m with repo := result.1 }, result.2)

/-! ## src/catalog/schema.rs: table schemas -/

/-- `TableSchema`. -/
structure TableSchema where
  name : String
  version : Nat
  columns : List ColumnDef
  primaryKey : Option String
  description : Option String
  createdAt : String
  updatedAt : String
deriving DecidableEq

/-- Duplicate-name scan of `TableSchema::validate`. -/
def findDuplicateColumn : List ColumnDef → List String → Option String
  | [], _ => none
  | c :: rest, seen =>
    if c.name ∈ seen then some c.name
    else findDuplicateColumn rest (c.name :: seen)

namespace TableSchema

/-- `TableSchema::column_names`. -/
def columnNames (s : TableSchema) : List String := s.columns.map ColumnDef.name

/-- `TableSchema::get_column`. -/
def getColumn (s : TableSchema) (name : String) : Option ColumnDef :=
  s.columns.find? fun c => c.name == name

/-- `TableSchema::validate`. -/
def validate (s : TableSchema) : Except SchemaError Unit :=
  match findDuplicateColumn s.columns [] with
  | some c => .error (.duplicateColumn c)
  | none =>
    match s.primaryKey with
    | some pk =>
      if s.columns.any (fun c => c.name == pk) then .ok ()
      else .error (.invalidPrimaryKey pk)
    | none => .ok ()

/-- Column loop of `TableSchema::validate_row`. -/
def validateColsLoop (fields : List (String × Json)) :
    List ColumnDef → Except SchemaError Unit
  | [] => .ok ()
  | c :: rest =>
    match c.validate (List.lookup c.name fields) with
    | .error e => .error (.invalidRow e)
    | .ok _ => validateColsLoop fields rest

/-- `TableSchema::validate_row`. -/
def validateRow (s : TableSchema) (row : Json) : Except SchemaError Unit :=
  match row with
  | .obj fields => validateColsLoop fields s.columns
  | _ => .error (.invalidRowMsg "row must be a JSON object")

/-- Column loop of `TableSchema::apply_defaults`. -/
def applyDefaultsLoop :
    List ColumnDef → List (String × Json) → List (String × Json)
  | [], fields => fields
  | c :: rest, fields =>
    let fields2 :=
      if (List.lookup c.name fields).isSome then fields
      else
        match c.defaultValue with
        | some d => btInsert c.name d fields
        | none => fields
    applyDefaultsLoop rest fields2

/-- `TableSchema::apply_defaults`. -/
def applyDefaults (s : TableSchema) (row : Json) : Except SchemaError Json :=
  match row with
  | .obj fields => .ok (.obj (applyDefaultsLoop s.columns fields))
  | _ => .error (.invalidRowMsg "row must be a JSON object")

end TableSchema

/-! serde encoding of schemas (`serde_json::to_value` produces `BTreeMap`
objects, so object keys below appear in sorted order; `skip_serializing_if`
drops empty constraint lists and absent options). -/

/-- serde encoding of `DataType` (`rename_all = "lowercase"`). -/
def dataTypeJson : DataType → Json
  | .text => .str "text"
  | .integer => .str "integer"
  | .float => .str "float"
  | .boolean => .str "boolean"
  | .json => .str "json"
  | .timestamp => .str "timestamp"
  | .uuid => .str "uuid"

/-- serde decoding of `DataType`. -/
def dataTypeOfJson : Json → Option DataType
  | .str "text" => some .text
  | .str "integer" => some .integer
  | .str "float" => some .float
  | .str "boolean" => some .boolean
  | .str "json" => some .json
  | .str "timestamp" => some .timestamp
  | .str "uuid" => some .uuid
  | _ => none

/-- serde encoding of `Constraint` (`rename_all = "snake_case"`,
externally tagged payloads). -/
def constraintJson : Constraint → Json
  | .notNull => .str "not_null"
  | .unique => .str "unique"
  | .primaryKey => .str "primary_key"
  | .default v => .obj [("default", v)]
  | .check e => .obj [("check", .str e)]

/-- serde decoding of `Constraint`. -/
def constraintOfJson : Json → Option Constraint
  | .str "not_null" => some .notNull
  | .str "unique" => some .unique
  | .str "primary_key" => some .primaryKey
  | .obj [("default", v)] => some (.default v)
  | .obj [("check", .str e)] => some (.check e)
  | _ => none

/-- serde encoding of `ColumnDef` (object keys in sorted order). -/
def colDefJson (c : ColumnDef) : Json :=
  .obj
    ((if c.constraints.isEmpty then []
      else [("constraints", Json.arr (c.constraints.map constraintJson))]) ++
      [("data_type", dataTypeJson c.dataType)] ++
      (match c.description with
       | some d => [("description", Json.str d)]
       | none => []) ++
      [("name", Json.str c.name)])

/-- Option-valued traversal of a list. -/
def traverseOpt {α β : Type _} (f : α → Option β) : List α → Option (List β)
  | [] => some []
  | a :: rest => do
    let b ← f a
    let bs ← traverseOpt f rest
    some (b :: bs)

/-- serde decoding of `ColumnDef` (missing `constraints` defaults to the
empty list, missing or null `description` to none). -/
def colDefOfJson : Json → Option ColumnDef
  | .obj fields => do
    let name ← (List.lookup "name" fields).bind Json.asStr
    let dt ← (List.lookup "data_type" fields).bind dataTypeOfJson
    let constraints ←
      match List.lookup "constraints" fields with
      | none => some []
      | some (.arr xs) => traverseOpt constraintOfJson xs
      | some _ => none
    let description ←
      match List.lookup "description" fields with
      | none => some none
      | some .null => some none
      | some (.str d) => some (some d)
      | some _ => none
    some ⟨name, dt, constraints, description⟩
  | _ => none

/-- serde encoding of `TableSchema` (object keys in sorted order;
timestamps serialize as their RFC 3339 strings). -/
def schemaJson (s : TableSchema) : Json :=
  .obj
    ([("columns", Json.arr (s.columns.map colDefJson)),
      ("created_at", Json.str s.createdAt)] ++
      (match s.description with
       | some d => [("description", Json.str d)]
       | none => []) ++
      [("name", Json.str s.name)] ++
      (match s.primaryKey with
       | some pk => [("primary_key", Json.str pk)]
       | none => []) ++
      [("updated_at", Json.str s.updatedAt),
       ("version", Json.num (.int (Int.ofNat s.version)))])

/-- serde decoding of `TableSchema`. -/
def schemaOfJson : Json → Option TableSchema
  | .obj fields => do
    let name ← (List.lookup "name" fields).bind Json.asStr
    let version ←
      match List.lookup "version" fields with
      | some (.num (.int i)) => if 0 ≤ i then some i.toNat else none
      | _ => none
    let columns ←
      match List.lookup "columns" fields with
      | some (.arr xs) => traverseOpt colDefOfJson xs
      | _ => none
    let primaryKey ←
      match List.lookup "primary_key" fields with
      | none => some none
      | some .null => some none
      | some (.str pk) => some (some pk)
      | some _ => none
    let description ←
      match List.lookup "description" fields with
      | none => some none
      | some .null => some none
      | some (.str d) => some (some d)
      | some _ => none
    let createdAt ← (List.lookup "created_at" fields).bind Json.asStr
    let updatedAt ← (List.lookup "updated_at" fields).bind Json.asStr
    some ⟨name, version, columns, primaryKey, description, createdAt, updatedAt⟩
  | _ => none

/-! ## src/catalog/manager.rs: the catalog -/

/-- `Catalog::table_exists`: every failure on the way collapses to false. -/
def catalogTableExists (s : RepoState) (name : String) : Bool :=
  match headCommit s with
  | .error _ => false
  | .ok head =>
    match TableName.validate "_schemas", RowKey.validate name with
    | .ok _, .ok _ =>
      (match repoReadRow s "_schemas" name head with
       | .ok o => o.isSome
       | .error _ => false)
    | _, _ => false

/-- `Catalog::create_table`: validate, lazily create the `_schemas`
storage table, reject duplicates, upsert the schema row, advance main. -/
def catalogCreateTable (s : RepoState) (schema : TableSchema) (now : String) :
    Except SchemaError RepoState := do
  let _ ← schema.validate
  match headCommit s with
  | .error e => .error (.storage e)
  | .ok head =>
    match TableName.validate "_schemas" with
    | .error e => .error (.storageName e)
    | .ok _ =>
      let ensure : Except SchemaError (RepoState × Nat) :=
        match repoTableExists s "_schemas" head with
        | .error e => .error (.storage e)
        | .ok exists2 =>
          if !exists2 then
            match repoCreateTable s "_schemas" head none with
            | .error e => .error (.storage e)
            | .ok p => .ok p
          else .ok (s, head)
      match ensure with
      | .error e => .error e
      | .ok (s2, head2) =>
        match RowKey.validate schema.name with
        | .error e => .error (.storageName e)
        | .ok _ =>
          match repoReadRow s2 "_schemas" schema.name head2 with
          | .error e => .error (.storage e)
          | .ok (some _) => .error (.tableExists schema.name)
          | .ok none =>
            let row := Row.mkNew schema.name [("schema", schemaJson schema)] now
            match repoUpsertRow s2 "_schemas" row head2 none with
            | .error e => .error (.storage e)
            | .ok (s3, newHead) =>
              match updateBranch s3 "main" newHead with
              | .error e => .error (.storage e)
              | .ok s4 => .ok s4

/-- `Catalog::get_table`. -/
def catalogGetTable (s : RepoState) (name : String) :
    Except SchemaError TableSchema := do
  match headCommit s with
  | .error e => .error (.storage e)
  | .ok head =>
    match TableName.validate "_schemas" with
    | .error e => .error (.storageName e)
    | .ok _ =>
      match RowKey.validate name with
      | .error e => .error (.storageName e)
      | .ok _ =>
        match repoReadRow s "_schemas" name head with
        | .error (.tableNotFound _) => .error (.tableNotFound name)
        | .error e => .error (.storage e)
        | .ok none => .error (.tableNotFound name)
        | .ok (some row) =>
          match List.lookup "schema" row.data with
          | none => .error (.storage (.internal "missing schema field"))
          | some v =>
            match schemaOfJson v with
            | some schema => .ok schema
            | none => .error (.storage (.serialization "from_value"))

/-! ## src/executor/executor.rs: the query executor

Statement variants not exercised by any claim (DropTable, Update, Delete,
ShowTables, Describe) are omitted from the statement type; the modelled
dispatch covers the rest of `execute_statement`.
-/

/-- `SqlDataType` from src/sql/ast.rs. -/
inductive SqlDataType where
  | text
  | integer
  | float
  | boolean
  | json
  | timestamp
  | uuid
deriving DecidableEq

/-- `convert_sql_type`. -/
def convert_sql_type : SqlDataType → DataType
  | .text => .text
  | .integer => .integer
  | .float => .float
  | .boolean => .boolean
  | .json => .json
  | .timestamp => .timestamp
  | .uuid => .uuid

/-- `ColumnConstraint` from src/sql/ast.rs. -/
inductive SqlColumnConstraint where
  | notNull
  | unique
  | primaryKey
  | default (e : Expr)

/-- `ColumnDef` from src/sql/ast.rs. -/
structure SqlColumnDef where
  name : String
  dataType : SqlDataType
  constraints : List SqlColumnConstraint

/-- `CreateTable`. -/
structure CreateTable where
  name : String
  columns : List SqlColumnDef
  ifNotExists : Bool

/-- `Insert`. -/
structure Insert where
  table : String
  columns : Option (List String)
  values : List (List Expr)

/-- `SelectColumn`. -/
inductive SelectColumn where
  | wildcard
  | columnSel (name : String)
  | exprSel (e : Expr) (aliasName : Option String)

/-- `OrderBy`. -/
structure OrderBy where
  column : String
  ascending : Bool

/-- `Select`. -/
structure Select where
  columns : List SelectColumn
  fromTable : String
  whereClause : Option Expr
  orderBy : List OrderBy
  limit : Option Nat
  offset : Option Nat

/-- `Statement` (modelled variants). -/
inductive Statement where
  | createTableStmt (ct : CreateTable)
  | insertStmt (i : Insert)
  | selectStmt (s : Select)
  | beginStmt
  | commitStmt
  | rollbackStmt

/-- `QueryResult` / `ResultSet` from src/executor/result.rs. -/
inductive QueryResult where
  | selectRes (columns : List String) (rows : List (List (String × Json)))
  | modified (rowsAffected : Nat)
  | success (message : String)
  | transactionRes (message : String)
deriving DecidableEq

/-- `QueryExecutor` state: the shared repository, the transaction
manager registry, and the optional current transaction.  `tick` drives
the model of the clock and of ULID generation. -/
structure ExecState where
  repo : RepoState
  active : List (String × TransactionMetadata)
  nextTx : Nat
  currentTx : Option TransactionMetadata
  tick : Nat
deriving DecidableEq

/-- Model of `chrono::Utc::now().to_rfc3339()`: a fresh timestamp per
clock tick. -/
def nowStr (tick : Nat) : String := "ts" ++ toString tick

/-- Model of `RowKey::generate()` (a fresh lowercase ULID). -/
def genRowKey (tick : Nat) : String := "genkey" ++ toString tick

/-- Conversion of SQL column constraints in `execute_create_table`
(default expressions are evaluated against the empty row). -/
def convertConstraints : List SqlColumnConstraint → Except ExecuteError (List Constraint)
  | [] => .ok []
  | c :: rest => do
    let c2 ←
      match c with
      | .notNull => .ok Constraint.notNull
      | .unique => .ok Constraint.unique
      | .primaryKey => .ok Constraint.primaryKey
      | .default e => (evaluate e []).map Constraint.default
    let rest2 ← convertConstraints rest
    .ok (c2 :: rest2)

/-- Column-definition conversion loop of `execute_create_table`. -/
def buildColDefs : List SqlColumnDef → Except ExecuteError (List ColumnDef)
  | [] => .ok []
  | c :: rest => do
    let cons ← convertConstraints c.constraints
    let rest2 ← buildColDefs rest
    .ok (⟨c.name, convert_sql_type c.dataType, cons, none⟩ :: rest2)

/-- `execute_create_table`.  Note: the schema is built without ever
setting the builder primary key, and the storage table is created only
after the catalog committed the schema row and advanced main, so an
invalid-name failure leaves that partial effect behind. -/
def executeCreateTable (st : ExecState) (ct : CreateTable) :
    ExecState × Except ExecuteError QueryResult :=
  if catalogTableExists st.repo ct.name then
    if ct.ifNotExists then
      (st, .ok (.success ("Table " ++ ct.name ++ " already exists")))
    else (st, .error (.tableNotFound ("Table " ++ ct.name ++ " already exists")))
  else
    match buildColDefs ct.columns with
    | .error e => (st, .error e)
    | .ok cols =>
      let schema : TableSchema :=
        ⟨ct.name, 1, cols, none, none, nowStr st.tick, nowStr st.tick⟩
      match schema.validate with
      | .error e => (st, .error (.schema e))
      | .ok _ =>
        match catalogCreateTable st.repo schema (nowStr (st.tick + 1)) with
        | .error e => (st, .error (.schema e))
        | .ok repo2 =>
          let st2 := { st with repo := repo2, tick := st.tick + 2 }
          match headCommit repo2 with
          | .error e => (st2, .error (.storage e))
          | .ok head =>
            match TableName.validate ct.name with
            | .error e => (st2, .error (.invalidName e))
            | .ok _ =>
              match repoCreateTable repo2 ct.name head none with
              | .error e => (st2, .error (.storage e))
              | .ok (repo3, newHead) =>
                match updateBranch repo3 "main" newHead with
                | .error e => ({ st2 with repo := repo3 }, .error (.storage e))
                | .ok repo4 =>
                  ({ st2 with repo := repo4 },
                    .ok (.success ("Created table " ++ ct.name)))

/-- The per-row data construction of `execute_insert`: values are
evaluated against the empty row and inserted under the corresponding
column names (extra values beyond the name list are ignored). -/
def buildDataLoop :
    List String → List Expr → List (String × Json) →
      Except ExecuteError (List (String × Json))
  | _, [], acc => .ok acc
  | [], _, acc => .ok acc
  | n :: ns, e :: es, acc => do
    let v ← evaluate e []
    buildDataLoop ns es (btInsert n v acc)

/-- The row loop of `execute_insert`: build, default, validate, derive
the key, insert through the engine.  Returns the repository, head and
tick after the rows processed so far together with the loop result. -/
def insertRowsLoop (schema : TableSchema) (tableName : String)
    (columnNames : List String) :
    List (List Expr) → RepoState → Nat → Nat → Nat →
      (RepoState × Nat × Nat) × Except ExecuteError Nat
  | [], repo, head, tick, inserted => ((repo, head, tick), .ok inserted)
  | rowValues :: rest, repo, head, tick, inserted =>
    match buildDataLoop columnNames rowValues [] with
    | .error e => ((repo, head, tick), .error e)
    | .ok data =>
      match schema.applyDefaults (.obj data) with
      | .error e => ((repo, head, tick), .error (.schema e))
      | .ok withDefaults =>
        let data2 :=
          match withDefaults with
          | .obj fields => fields
          | _ => []
        match schema.validateRow (.obj data2) with
        | .error e => ((repo, head, tick), .error (.schema e))
        | .ok _ =>
          let keyRes : Except ExecuteError (String × Nat) :=
            match schema.primaryKey with
            | some pk =>
              match (List.lookup pk data2).bind Json.asStr with
              | none => .error (.missingColumn pk)
              | some v =>
                match RowKey.validate v with
                | .error e => .error (.invalidName e)
                | .ok _ => .ok (v, tick)
            | none => .ok (genRowKey tick, tick + 1)
          match keyRes with
          | .error e => ((repo, head, tick), .error e)
          | .ok (key, tick2) =>
            let row := Row.mkNew key data2 (nowStr tick2)
            match repoInsertRow repo tableName row head none with
            | .error e => ((repo, head, tick2 + 1), .error (.storage e))
            | .ok (repo2, newHead) =>
              insertRowsLoop schema tableName columnNames rest repo2 newHead
                (tick2 + 1) (inserted + 1)

/-- `execute_insert`.  The current transaction is never consulted: the
rows are written starting from `repo.head()` (main) and main is advanced
by `update_branch` at the end. -/
def executeInsert (st : ExecState) (ins : Insert) :
    ExecState × Except ExecuteError QueryResult :=
  match catalogGetTable st.repo ins.table with
  | .error e => (st, .error (.schema e))
  | .ok schema =>
    match headCommit st.repo with
    | .error e => (st, .error (.storage e))
    | .ok head =>
      match TableName.validate ins.table with
      | .error e => (st, .error (.invalidName e))
      | .ok _ =>
        let columnNames :=
          match ins.columns with
          | some cs => cs
          | none => schema.columnNames
        match insertRowsLoop schema ins.table columnNames ins.values st.repo
            head st.tick 0 with
        | ((repo2, _, tick2), .error e) =>
          ({ st with repo := repo2, tick := tick2 }, .error e)
        | ((repo2, head2, tick2), .ok inserted) =>
          match updateBranch repo2 "main" head2 with
          | .error e =>
            ({ st with repo := repo2, tick := tick2 }, .error (.storage e))
          | .ok repo3 =>
            ({ st with repo := repo3, tick := tick2 }, .ok (.modified inserted))

/-- `compare_json_values` from src/executor/operators.rs (sort order:
absent and null first, numbers by double value, strings by codepoint,
false before true, unlike kinds equal). -/
def compare_json_values : Option Json → Option Json → Ordering
  | none, none => .eq
  | none, some _ => .lt
  | some _, none => .gt
  | some a, some b =>
    match a, b with
    | .null, .null => .eq
    | .null, _ => .lt
    | _, .null => .gt
    | .num x, .num y =>
      (match x.asF64, y.asF64 with
       | .fin qx, .fin qy => if qx < qy then .lt else if qy < qx then .gt else .eq
       | _, _ => .eq)
    | .str x, .str y => if strLt x y then .lt else if strLt y x then .gt else .eq
    | .bool x, .bool y =>
      if x == y then .eq else if x then .gt else .lt
    | _, _ => .eq

/-- The `ORDER BY` comparator of `SortOperator::materialize`. -/
def cmpRows (order : List OrderBy) (a b : List (String × Json)) : Ordering :=
  match order with
  | [] => .eq
  | ob :: rest =>
    let c := compare_json_values (List.lookup ob.column a) (List.lookup ob.column b)
    let c2 := if ob.ascending then c else c.swap
    match c2 with
    | .eq => cmpRows rest a b
    | r => r

/-- Stable insertion into a sorted row list (model of the stable
`Vec::sort_by`). -/
def insertSorted (cmp : List (String × Json) → List (String × Json) → Ordering)
    (x : List (String × Json)) :
    List (List (String × Json)) → List (List (String × Json))
  | [] => [x]
  | y :: ys =>
    match cmp x y with
    | .lt => x :: y :: ys
    | _ => y :: insertSorted cmp x ys

/-- Stable sort of the materialized rows. -/
def sortRowsBy (cmp : List (String × Json) → List (String × Json) → Ordering) :
    List (List (String × Json)) → List (List (String × Json))
  | [] => []
  | x :: xs => insertSorted cmp x (sortRowsBy cmp xs)

/-- `FilterOperator` over materialized rows. -/
def filterRowsLoop (wc : Expr) :
    List (List (String × Json)) →
      Except ExecuteError (List (List (String × Json)))
  | [] => .ok []
  | r :: rest => do
    let b ← matches_where wc r
    let tail ← filterRowsLoop wc rest
    .ok (if b then r :: tail else tail)

/-- `ProjectOperator` over one row. -/
def projectRow (cols : List SelectColumn) (row : List (String × Json)) :
    Except ExecuteError (List (String × Json)) :=
  cols.foldlM
    (fun acc c =>
      match c with
      | .wildcard => .ok (row.foldl (fun a kv => btInsert kv.1 kv.2 a) acc)
      | .columnSel name =>
        match List.lookup name row with
        | some v => .ok (btInsert name v acc)
        | none => .ok acc
      | .exprSel e aliasName => do
        let v ← evaluate e row
        let name :=
          match aliasName with
          | some a => a
          | none => "expr"
        .ok (btInsert name v acc))
    []

/-- `ProjectOperator` over materialized rows. -/
def projectRowsLoop (cols : List SelectColumn) :
    List (List (String × Json)) →
      Except ExecuteError (List (List (String × Json)))
  | [] => .ok []
  | r :: rest => do
    let r2 ← projectRow cols r
    let tail ← projectRowsLoop cols rest
    .ok (r2 :: tail)

/-- `QueryExecutor::scan_table`: materialized row data at main head. -/
def scanTableExec (st : ExecState) (table : String) :
    Except ExecuteError (List (List (String × Json))) :=
  match headCommit st.repo with
  | .error e => .error (.storage e)
  | .ok head =>
    match TableName.validate table with
    | .error e => .error (.invalidName e)
    | .ok _ =>
      match repoScanTable st.repo table head with
      | .error e => .error (.storage e)
      | .ok rows => .ok (rows.map Row.data)

/-- `execute_select`: scan, then filter, sort, limit/offset, project, and
collect, as the operator pipeline does. -/
def executeSelect (st : ExecState) (sel : Select) :
    Except ExecuteError QueryResult := do
  let rows0 ← scanTableExec st sel.fromTable
  let rows1 ←
    match sel.whereClause with
    | some wc => filterRowsLoop wc rows0
    | none => .ok rows0
  let rows2 :=
    if sel.orderBy.isEmpty then rows1 else sortRowsBy (cmpRows sel.orderBy) rows1
  let rows3 :=
    if sel.limit.isSome || sel.offset.isSome then
      (match sel.limit with
       | some l => (rows2.drop (sel.offset.getD 0)).take l
       | none => rows2.drop (sel.offset.getD 0))
    else rows2
  let hasWildcard := sel.columns.any fun c =>
    match c with
    | .wildcard => true
    | _ => false
  let rows4 ← if hasWildcard then .ok rows3 else projectRowsLoop sel.columns rows3
  let columns :=
    if hasWildcard then
      match rows4.head? with
      | some r => r.map Prod.fst
      | none => []
    else
      sel.columns.filterMap fun c =>
        match c with
        | .columnSel name => some name
        | .exprSel _ aliasName => aliasName
        | .wildcard => none
  .ok (.selectRes columns rows4)

/-- `execute_begin`: forbids nested transactions, begins through the
manager, stashes the active transaction. -/
def executeBegin (st : ExecState) : ExecState × Except ExecuteError QueryResult :=
  if st.currentTx.isSome then
    (st, .error (.internal "transaction already active"))
  else
    match managerBegin ⟨st.repo, st.active, st.nextTx⟩ .readCommitted with
    | .error e => (st, .error (.transaction e))
    | .ok (m2, meta) =>
      (⟨m2.repo, m2.active, m2.nextTx, some meta, st.tick⟩,
        .ok (.transactionRes "BEGIN"))

/-- `execute_commit`: takes the current transaction and commits it
directly (the manager registry is not updated here). -/
def executeCommit (st : ExecState) : ExecState × Except ExecuteError QueryResult :=
  match st.currentTx with
  | none => (st, .error .noTransaction)
  | some meta =>
    let (repo2, res) := txCommit meta st.repo
    let st2 := { st with repo := repo2, currentTx := none }
    match res with
    | .ok _ => (st2, .ok (.transactionRes "COMMIT"))
    | .error e => (st2, .error (.transaction e))

/-- `execute_rollback`: takes the current transaction and rolls it back
(deleting its branch; the manager registry is not updated here). -/
def executeRollback (st : ExecState) : ExecState × Except ExecuteError QueryResult :=
  match st.currentTx with
  | none => (st, .error .noTransaction)
  | some meta =>
    ({ st with repo := txRollback meta st.repo, currentTx := none },
      .ok (.transactionRes "ROLLBACK"))

/-- `execute_statement` over the modelled variants. -/
def executeStatement (st : ExecState) (stmt : Statement) :
    ExecState × Except ExecuteError QueryResult :=
  match stmt with
  | .createTableStmt ct => executeCreateTable st ct
  | .insertStmt i => executeInsert st i
  | .selectStmt sel => (st, executeSelect st sel)
  | .beginStmt => executeBegin st
  | .commitStmt => executeCommit st
  | .rollbackStmt => executeRollback st

/-- Run a statement list, collecting each statement result. -/
def runStatements : List Statement → ExecState →
    ExecState × List (Except ExecuteError QueryResult)
  | [], st => (st, [])
  | stmt :: rest, st =>
    let (st2, r) := executeStatement st stmt
    let (st3, rs) := runStatements rest st2
    (st3, r :: rs)

/-- The executor state over a freshly initialized repository
(`QueryExecutor::new` over `GitRepository::init`). -/
def initExecState : ExecState := ⟨initRepo, [], 0, none, 0⟩

/-! ## Concrete scenarios used by the claim analyses -/

/-- Preparation of the concurrent-commit scenario: a table `_t` committed
to main, two transactions begun from the same base, one insert on each
(disjoint row keys), then the first transaction committed. -/
def c1Prep : Except TransactionError (RepoState × TransactionMetadata × TransactionMetadata) := do
  let (s1, cT) ← (repoCreateTable initRepo "_t" 0 none).mapError TransactionError.storage
  let s2 ← (updateBranch s1 "main" cT).mapError TransactionError.storage
  let (m1, metaA) ← managerBegin ⟨s2, [], 0⟩ .readCommitted
  let (m2, metaB) ← managerBegin m1 .readCommitted
  let (sA, metaA2) ← txInsert metaA m2.repo "_t" (Row.mkNew "key1" [] "tA")
  let (sB, metaB2) ← txInsert metaB sA "_t" (Row.mkNew "key2" [] "tB")
  let (sC, resA) := txCommit metaA2 sB
  match resA with
  | .error e => .error e
  | .ok _ => .ok (sC, metaA2, metaB2)

/-- The state after the first transaction committed, together with the
second (still pending) transaction. -/
def c1Case : RepoState × TransactionMetadata :=
  match c1Prep with
  | .ok (sC, _, metaB2) => (sC, metaB2)
  | .error _ => (initRepo, ⟨"", "", 0, 0, .readCommitted⟩)

/-- The literal statement sequence of the rollback scenario. -/
def c3Stmts : List Statement :=
  [.createTableStmt ⟨"t", [⟨"id", .text, [.primaryKey]⟩], false⟩,
    .beginStmt,
    .insertStmt ⟨"t", some ["id"], [[.literal (.string "x")]]⟩,
    .rollbackStmt,
    .selectStmt ⟨[.wildcard], "t", none, [], none, none⟩]

/-- The rollback scenario run on a fresh repository. -/
def c3Run : ExecState × List (Except ExecuteError QueryResult) :=
  runStatements c3Stmts initExecState

/-- The rollback scenario with a table name the validator accepts. -/
def c3uStmts : List Statement :=
  [.createTableStmt ⟨"_t", [⟨"id", .text, [.primaryKey]⟩], false⟩,
    .beginStmt,
    .insertStmt ⟨"_t", some ["id"], [[.literal (.string "x")]]⟩,
    .rollbackStmt,
    .selectStmt ⟨[.wildcard], "_t", none, [], none, none⟩]

/-- The accepted-name rollback scenario run on a fresh repository. -/
def c3uRun : ExecState × List (Except ExecuteError QueryResult) :=
  runStatements c3uStmts initExecState

/-- The accepted-name rollback scenario stopped right after the create. -/
def c3uAfterCreate : ExecState × List (Except ExecuteError QueryResult) :=
  runStatements (c3uStmts.take 1) initExecState

/-- The literal create/insert/select scenario over a `users` table. -/
def c4Stmts : List Statement :=
  [.createTableStmt ⟨"users",
      [⟨"id", .text, [.primaryKey]⟩, ⟨"name", .text, []⟩], false⟩,
    .insertStmt ⟨"users", some ["id", "name"],
      [[.literal (.string "1"), .literal (.string "Alice")]]⟩,
    .selectStmt ⟨[.wildcard], "users", none, [], none, none⟩]

/-- The `users` scenario run on a fresh repository. -/
def c4Run : ExecState × List (Except ExecuteError QueryResult) :=
  runStatements c4Stmts initExecState

/-- The main head after the `users` scenario. -/
def c4Head : Nat :=
  match headCommit c4Run.1.repo with
  | .ok h => h
  | .error _ => 0

/-- The same scenario over `-users`, a name the validator accepts and
`list_tables` does not skip. -/
def c4dStmts : List Statement :=
  [.createTableStmt ⟨"-users",
      [⟨"id", .text, [.primaryKey]⟩, ⟨"name", .text, []⟩], false⟩,
    .insertStmt ⟨"-users", some ["id", "name"],
      [[.literal (.string "1"), .literal (.string "Alice")]]⟩,
    .selectStmt ⟨[.wildcard], "-users", none, [], none, none⟩]

/-- The `-users` scenario run on a fresh repository. -/
def c4dRun : ExecState × List (Except ExecuteError QueryResult) :=
  runStatements c4dStmts initExecState

/-- The main head after the `-users` scenario. -/
def c4dHead : Nat :=
  match headCommit c4dRun.1.repo with
  | .ok h => h
  | .error _ => 0

end GitDB

namespace GitDB

/-! ## Helper notions for the arithmetic-evaluation claims -/

/-- Whether a JSON value is an integer number. -/
def isIntJson : Json → Bool
  | .num (.int _) => true
  | _ => false

/-- The result classification of `eval_arithmetic` on the coerced double
`x = f l r`: the call succeeds; it yields an integer exactly when both
operands are `i64` integers and the double result is whole; its result is
null exactly when it is not an integer and the double is NaN or infinite;
and otherwise it is a float number. -/
def ArithOutcome (l r : Json) (x : F64) (out : Except ExecuteError Json) : Prop :=
  ∃ v, out = .ok v ∧
    (isIntJson v = true ↔
      (l.isI64Val = true ∧ r.isI64Val = true ∧
        F64.beq (F64.fract x) (.fin 0) = true)) ∧
    (v = .null ↔ (isIntJson v = false ∧ numFromF64 x = none)) ∧
    (isIntJson v = false → numFromF64 x ≠ none → ∃ q, v = .num (.float q))

/-- `eval_arithmetic` satisfies the outcome classification. -/
theorem eval_arithmetic_outcome (l r : Json) (f : F64 → F64 → F64) :
    ArithOutcome l r (f (value_to_f64 l) (value_to_f64 r))
      (eval_arithmetic l r f) := by
  rw [ArithOutcome, eval_arithmetic]
  by_cases hc : (l.isI64Val && r.isI64Val &&
      F64.beq (F64.fract (f (value_to_f64 l) (value_to_f64 r))) (.fin 0)) = true
  · rw [if_pos hc]
    have hc3 : l.isI64Val = true ∧ r.isI64Val = true ∧
        F64.beq (F64.fract (f (value_to_f64 l) (value_to_f64 r))) (.fin 0) = true := by
      simpa [Bool.and_eq_true, and_assoc] using hc
    exact ⟨.num (.int (f (value_to_f64 l) (value_to_f64 r)).toI64), rfl,
      by simp [isIntJson, hc3], by simp [isIntJson], by simp [isIntJson]⟩
  · rw [if_neg hc]
    have hc2 : ¬ (l.isI64Val = true ∧ r.isI64Val = true ∧
        F64.beq (F64.fract (f (value_to_f64 l) (value_to_f64 r))) (.fin 0) = true) := by
      intro h
      exact hc (by simp [Bool.and_eq_true, and_assoc, h.1, h.2.1, h.2.2])
    cases hX : f (value_to_f64 l) (value_to_f64 r) with
    | fin q =>
      refine ⟨.num (.float q), by simp [hX, numFromF64], ?_, ?_, ?_⟩
      · rw [hX] at hc2; simp [isIntJson, hc2]
      · simp [isIntJson, numFromF64]
      · exact fun _ _ => ⟨q, rfl⟩
    | inf =>
      refine ⟨.null, by simp [hX, numFromF64], ?_, ?_, ?_⟩
      · rw [hX] at hc2; simp [isIntJson, hc2]
      · simp [isIntJson, numFromF64]
      · intro _ hn; exact absurd rfl hn
    | negInf =>
      refine ⟨.null, by simp [hX, numFromF64], ?_, ?_, ?_⟩
      · rw [hX] at hc2; simp [isIntJson, hc2]
      · simp [isIntJson, numFromF64]
      · intro _ hn; exact absurd rfl hn
    | nan =>
      refine ⟨.null, by simp [hX, numFromF64], ?_, ?_, ?_⟩
      · rw [hX] at hc2; simp [isIntJson, hc2]
      · simp [isIntJson, numFromF64]
      · intro _ hn; exact absurd rfl hn

/-- Double equality against finite zero holds exactly at finite zero. -/
theorem beq_fin_zero {y : F64} : F64.beq y (.fin 0) = true ↔ y = .fin 0 := by
  cases y <;> simp [F64.beq]

/-! ## Claim C1 -/

/-- Claim C1: false of the code.  In the prepared two-transaction
scenario the committing transaction sees main at commit 2 while its base
is commit 1, `detect_conflicts` reports no common path, and yet
`commit()` returns `Conflict` with an empty path list, deletes the tx
branch and leaves main where it was: `commit` hands `base_commit` rather
than the observed main head to `fast_forward_main`, so once main has
drifted the compare-and-swap always fails and the
`ConcurrentModification` handler turns the empty conflict list into a
`Conflict` error. -/
theorem C1_drift_without_overlap_still_conflicts :
    headCommit c1Case.1 = .ok 2 ∧
    c1Case.2.baseCommit = 1 ∧
    repoDetectConflicts c1Case.1 c1Case.2.branch 2 = .ok [] ∧
    (txCommit c1Case.2 c1Case.1).2 = .error (.conflict []) ∧
    (txCommit c1Case.2 c1Case.1).1.branches = [("main", 2)] := by decide

/-! ## Claim C2 -/

/-- Claim C2: false of the code.  `TableName::validate` rejects every
otherwise-valid name whose first character is an ASCII letter (the start
check `is_ascii_alphanumeric() && != '_'` is inverted), accepts names
starting with a hyphen, and accepts `_schemas`, which the claimed
reserved set contains. -/
theorem C2_validate_rejects_letter_start_and_accepts_schemas :
    TableName.validate "users" = .error (.invalidStart 'u') ∧
    TableName.validate "a" = .error (.invalidStart 'a') ∧
    TableName.validate "_schemas" = .ok () ∧
    TableName.validate "-users" = .ok () := by decide

/-! ## Claim C3 -/

/-- Claim C3: false of the code.  The literal scenario never reaches the
insert: every data statement fails `InvalidName` because the validator
rejects the letter-initial name `t` (see C2), and main ends at commit 2
(the schema-row commit the failed CREATE left behind), not at a
post-create head.  Re-running the same scenario with the accepted name
`_t` shows the transactional claim itself is false: the INSERT inside
BEGIN..ROLLBACK reports one row modified, the SELECT after ROLLBACK
returns that row, and main's head has advanced from 3 (after the create)
to 4 — `execute_insert` writes to main and never consults the current
transaction. -/
theorem C3_insert_inside_transaction_hits_main :
    c3Run.2 = [.error (.invalidName (.invalidStart 't')),
      .ok (.transactionRes "BEGIN"),
      .error (.invalidName (.invalidStart 't')),
      .ok (.transactionRes "ROLLBACK"),
      .error (.invalidName (.invalidStart 't'))] ∧
    headCommit c3Run.1.repo = .ok 2 ∧
    c3uRun.2 = [.ok (.success "Created table _t"),
      .ok (.transactionRes "BEGIN"),
      .ok (.modified 1),
      .ok (.transactionRes "ROLLBACK"),
      .ok (.selectRes ["id"] [[("id", .str "x")]])] ∧
    headCommit c3uAfterCreate.1.repo = .ok 3 ∧
    headCommit c3uRun.1.repo = .ok 4 := by decide

/-! ## Claim C4 -/

/-- Claim C4 counterexample: the claimed outcome of the literal `users`
scenario — one `{id "1", name "Alice"}` row from the SELECT and stats
2/2 at the main head — does not hold on the fresh repository. -/
theorem C4_claimed_outcomes_fail :
    ¬ (c4Run.2.getLast? = some (.ok (.selectRes ["id", "name"]
          [[("id", .str "1"), ("name", .str "Alice")]])) ∧
       (repoStats c4Run.1.repo c4Head).map
          (fun st => (st.tableCount, st.totalRows)) = .ok (2, 2)) := by decide

/-- Claim C4 (amended): every statement of the literal scenario fails
`InvalidName` (the validator rejects `users`, see C2) and stats at the
main head reports 0 tables and 0 rows; with the accepted name `-users`
the SELECT does return exactly the one `{id "1", name "Alice"}` row, but
stats reports 1 table and 1 row: `list_tables` skips every
underscore-prefixed directory, so the reserved `_schemas` directory and
its schema row are counted in neither total. -/
theorem C4_actual_outcomes :
    c4Run.2 = [.error (.invalidName (.invalidStart 'u')),
      .error (.invalidName (.invalidStart 'u')),
      .error (.invalidName (.invalidStart 'u'))] ∧
    headCommit c4Run.1.repo = .ok 2 ∧
    repoStats c4Run.1.repo c4Head = .ok ⟨0, 0, 1, 0⟩ ∧
    c4dRun.2 = [.ok (.success "Created table -users"),
      .ok (.modified 1),
      .ok (.selectRes ["id", "name"]
        [[("id", .str "1"), ("name", .str "Alice")]])] ∧
    repoStats c4dRun.1.repo c4dHead = .ok ⟨1, 1, 1, 0⟩ := by decide

/-! ## Claim C5: counterexample -/

/-- A row whose data map contains the reserved `_pk` field name. -/
def c5Bad : Row := ⟨"a", 1, "t0", "t0", [("_pk", .str "b")]⟩

/-- Claim C5 counterexample: the serde-flattened data map can itself
contain a `_pk` entry; serializing replays the known field, so
deserialization rejects the blob as a duplicate field and the round-trip
fails for this row even at its own (valid) key, with a `Serialization`
rather than a `Corrupted` error. -/
theorem C5_pk_shadow_breaks_roundtrip :
    RowKey.validate c5Bad.key = .ok () ∧
    deserialize_row (serialize_row c5Bad) c5Bad.key =
      .error (.serialization "duplicate field _pk") := by decide

/-! ## Claim C8 -/

/-- Claim C8 counterexample: adding the integer operands `2^63` and `1`
produces a float result even though both operands are integers and the
double result is whole — `is_i64` is false for `2^63`, so the
integer-result rule of the claim fails. -/
theorem C8_integer_overflow_yields_float :
    isIntJson (.num (.int (2 ^ 63))) = true ∧
    isIntJson (.num (.int 1)) = true ∧
    F64.beq (F64.fract (F64.add (value_to_f64 (.num (.int (2 ^ 63))))
        (value_to_f64 (.num (.int 1))))) (.fin 0) = true ∧
    (eval_binary_op (.num (.int (2 ^ 63))) .plus (.num (.int 1))).map isIntJson =
      .ok false := by decide

/-- Claim C8 (amended): division fails `DivisionByZero` exactly when the
divisor coerces to (finite) zero; `+`, `-`, `*`, and guarded `/` satisfy
the outcome classification — an integer result exactly when both
operands are `i64`-range integers (not merely integers) and the double
result is whole, a float when the double is finite, and null otherwise;
and unary minus yields an integer whenever the value's double is whole. -/
theorem C8_arithmetic_outcomes (l r : Json) :
    (eval_binary_op l .divide r = .error .divisionByZero ↔
      value_to_f64 r = .fin 0) ∧
    ArithOutcome l r (F64.add (value_to_f64 l) (value_to_f64 r))
      (eval_binary_op l .plus r) ∧
    ArithOutcome l r (F64.sub (value_to_f64 l) (value_to_f64 r))
      (eval_binary_op l .minus r) ∧
    ArithOutcome l r (F64.mul (value_to_f64 l) (value_to_f64 r))
      (eval_binary_op l .multiply r) ∧
    (value_to_f64 r ≠ .fin 0 →
      ArithOutcome l r (F64.div (value_to_f64 l) (value_to_f64 r))
        (eval_binary_op l .divide r)) ∧
    (∀ v : Json, F64.beq (F64.fract (value_to_f64 v)) (.fin 0) = true →
      eval_unary_op .minus v =
        .ok (.num (.int (F64.toI64 (F64.neg (value_to_f64 v)))))) := by
  refine ⟨?_, eval_arithmetic_outcome l r F64.add,
    eval_arithmetic_outcome l r F64.sub,
    eval_arithmetic_outcome l r F64.mul, ?_, ?_⟩
  · by_cases hb : F64.beq (value_to_f64 r) (.fin 0) = true
    · have he : eval_binary_op l .divide r = .error .divisionByZero := by
        simp [eval_binary_op, hb]
      simp [he, beq_fin_zero.mp hb]
    · have he : eval_binary_op l .divide r = eval_arithmetic l r F64.div := by
        simp [eval_binary_op, hb]
      obtain ⟨v, hv, _⟩ := eval_arithmetic_outcome l r F64.div
      rw [he, hv]
      constructor
      · intro h; cases h
      · intro h; exact absurd (beq_fin_zero.mpr h) hb
  · intro hr
    have hb : F64.beq (value_to_f64 r) (.fin 0) ≠ true :=
      fun h => hr (beq_fin_zero.mp h)
    have he : eval_binary_op l .divide r = eval_arithmetic l r F64.div := by
      simp [eval_binary_op, hb]
    rw [he]
    exact eval_arithmetic_outcome l r F64.div
  · intro v hv
    simp [eval_unary_op, hv]

/-- Witness for C8 at `6 / 0` and `30 + 10`. -/
theorem C8_arithmetic_outcomes_witness :
    eval_binary_op (.num (.int 6)) .divide (.num (.int 0)) =
      .error .divisionByZero :=
  (C8_arithmetic_outcomes (.num (.int 6)) (.num (.int 0))).1.mpr (by decide)

/-! ## Claim C9 -/

/-- Claim C9: modulo with a divisor that coerces to zero never errors:
the unguarded float `%` yields NaN, `Number::from_f64` rejects NaN, and
the expression evaluates to JSON null. -/
theorem C9_modulo_by_zero_is_null (l r : Json)
    (h : value_to_f64 r = .fin 0) :
    eval_binary_op l .modulo r = .ok .null := by
  have hm : F64.mod (value_to_f64 l) (value_to_f64 r) = .nan := by
    rw [h]; cases value_to_f64 l <;> simp [F64.mod]
  show eval_arithmetic l r F64.mod = .ok .null
  rw [eval_arithmetic]
  simp [hm, F64.fract, F64.beq, numFromF64]

/-- Witness for C9 at `5 % 0`. -/
theorem C9_modulo_by_zero_is_null_witness :
    eval_binary_op (.num (.int 5)) .modulo (.num (.int 0)) = .ok .null :=
  C9_modulo_by_zero_is_null (.num (.int 5)) (.num (.int 0)) (by decide)

/-! ## Claim C10 -/

/-- Claim C10: validating an explicitly present JSON null returns a
type-mismatch error for every column definition and every data type
(`DataType::matches` has no null arm), while an absent value passes for
a nullable column. -/
theorem C10_explicit_null_never_validates (c : ColumnDef) :
    c.validate (some .null) = .error (.typeMismatch c.name c.dataType) ∧
    (c.isNullable = true → c.validate none = .ok ()) := by
  constructor
  · have h : c.dataType.matchesVal .null = false := by
      cases c.dataType <;> rfl
    simp [ColumnDef.validate, h]
  · intro h
    simp [ColumnDef.validate, h]

/-- Witness for C10 at a nullable TEXT column. -/
theorem C10_explicit_null_never_validates_witness :
    ColumnDef.validate ⟨"nickname", .text, [], none⟩ (some .null) =
      .error (.typeMismatch "nickname" .text) ∧
    ColumnDef.validate ⟨"nickname", .text, [], none⟩ none = .ok () :=
  ⟨(C10_explicit_null_never_validates ⟨"nickname", .text, [], none⟩).1,
    (C10_explicit_null_never_validates ⟨"nickname", .text, [], none⟩).2 rfl⟩

/-! ## Claim C5: the round-trip on well-formed rows -/

/-- The codepoint order is irreflexive. -/
theorem codeListLt_irrefl : ∀ as : List Char, codeListLt as as = false
  | [] => rfl
  | a :: as => by simp [codeListLt, codeListLt_irrefl as]

/-- The codepoint order is asymmetric. -/
theorem codeListLt_asymm : ∀ as bs : List Char,
    codeListLt as bs = true → codeListLt bs as = false
  | [], [], h => by simp [codeListLt] at h
  | [], _ :: _, _ => rfl
  | _ :: _, [], h => by simp [codeListLt] at h
  | a :: as, b :: bs, h => by
    simp [codeListLt] at h ⊢
    rcases h with h | ⟨hab, h⟩
    · refine ⟨le_of_lt h, fun hba => ?_⟩
      subst hba
      exact absurd h (lt_irrefl _)
    · exact ⟨le_of_eq hab, fun _ => codeListLt_asymm as bs h⟩

/-- String order is asymmetric. -/
theorem strLt_asymm {a b : String} (h : strLt a b = true) : strLt b a = false :=
  codeListLt_asymm a.toList b.toList h

/-- Strictly smaller strings are different. -/
theorem strLt_ne {a b : String} (h : strLt a b = true) : a ≠ b := by
  intro he
  subst he
  rw [strLt, codeListLt_irrefl] at h
  cases h

/-- Inserting a key above every key of a sorted map appends the entry. -/
theorem btInsert_append (k : String) (v : Json) :
    ∀ acc : List (String × Json), (∀ p ∈ acc, strLt p.1 k = true) →
      btInsert k v acc = acc ++ [(k, v)]
  | [], _ => rfl
  | (k2, v2) :: rest, h => by
    have h2 : strLt k2 k = true := h (k2, v2) (List.mem_cons_self _ _)
    have hlt : strLt k k2 = false := strLt_asymm h2
    have hne : (k == k2) = false := by
      simp only [beq_eq_false_iff_ne, ne_eq]
      exact fun he => strLt_ne h2 he.symm
    rw [btInsert, hlt, hne]
    simp [btInsert_append k v rest fun p hp => h p (List.mem_cons_of_mem _ hp)]

/-- Folding `BTreeMap::insert` over entries sorted above the accumulator
appends them in order. -/
theorem foldl_btInsert_sorted :
    ∀ (ds acc : List (String × Json)),
      (∀ p ∈ acc, ∀ q ∈ ds, strLt p.1 q.1 = true) →
      ds.Pairwise (fun p q => strLt p.1 q.1 = true) →
      ds.foldl (fun m p => btInsert p.1 p.2 m) acc = acc ++ ds
  | [], acc, _, _ => by simp
  | (dk, dv) :: ds, acc, hcross, hpw => by
    rw [List.pairwise_cons] at hpw
    have h1 : btInsert dk dv acc = acc ++ [(dk, dv)] :=
      btInsert_append dk dv acc fun p hp =>
        hcross p hp (dk, dv) (List.mem_cons_self _ _)
    have h2 : ds.foldl (fun m p => btInsert p.1 p.2 m) (acc ++ [(dk, dv)]) =
        (acc ++ [(dk, dv)]) ++ ds :=
      foldl_btInsert_sorted ds (acc ++ [(dk, dv)])
        (by
          intro p hp q hq
          rcases List.mem_append.mp hp with hp | hp
          · exact hcross p hp q (List.mem_cons_of_mem _ hq)
          · have : p = (dk, dv) := by simpa using hp
            subst this
            exact hpw.1 q hq)
        hpw.2
    calc ((dk, dv) :: ds).foldl (fun m p => btInsert p.1 p.2 m) acc
        = ds.foldl (fun m p => btInsert p.1 p.2 m) (btInsert dk dv acc) := rfl
      _ = (acc ++ [(dk, dv)]) ++ ds := by rw [h1, h2]
      _ = acc ++ (dk, dv) :: ds := by simp

/-- The deserializer loop on entries free of metadata keys folds them all
into the flattened data map. -/
theorem parseRowEntries_data :
    ∀ (ds : List (String × Json)) (pk : String) (ver : Nat) (ca ua : String)
      (acc : List (String × Json)),
      (∀ p ∈ ds, p.1 ∉ metaKeys) →
      parseRowEntries ds ⟨some pk, some ver, some ca, some ua, acc⟩ =
        .ok ⟨some pk, some ver, some ca, some ua,
          ds.foldl (fun m p => btInsert p.1 p.2 m) acc⟩
  | [], _, _, _, _, acc, _ => by simp [parseRowEntries]
  | (k, v) :: ds, pk, ver, ca, ua, acc, h => by
    have hk : k ∉ metaKeys := h (k, v) (List.mem_cons_self _ _)
    obtain ⟨h1, h2, h3, h4⟩ :
        k ≠ "_pk" ∧ k ≠ "_version" ∧ k ≠ "_created_at" ∧ k ≠ "_updated_at" := by
      simpa [metaKeys] using hk
    have hstep : parseRowEntries ((k, v) :: ds)
        ⟨some pk, some ver, some ca, some ua, acc⟩ =
        parseRowEntries ds ⟨some pk, some ver, some ca, some ua,
          btInsert k v acc⟩ := by
      rw [parseRowEntries.eq_def]
      simp only [beq_eq_false_iff_ne.mpr h1, beq_eq_false_iff_ne.mpr h2,
        beq_eq_false_iff_ne.mpr h3, beq_eq_false_iff_ne.mpr h4,
        Bool.false_eq_true, if_false]
    rw [hstep]
    exact parseRowEntries_data ds pk ver ca ua (btInsert k v acc)
      fun p hp => h p (List.mem_cons_of_mem _ hp)

/-- Parsing a serialized well-formed row recovers all its fields. -/
theorem parseRowEntries_serialize (r : Row)
    (hver : r.version < 2 ^ 64)
    (hmeta : ∀ p ∈ r.data, p.1 ∉ metaKeys)
    (hsorted : r.data.Pairwise fun p q => strLt p.1 q.1 = true) :
    parseRowEntries (serialize_row r) ⟨none, none, none, none, []⟩ =
      .ok ⟨some r.key, some r.version, some r.createdAt, some r.updatedAt,
        r.data⟩ := by
  have hi : 0 ≤ Int.ofNat r.version ∧ Int.ofNat r.version < 2 ^ 64 :=
    ⟨Int.ofNat_nonneg _, by simpa using Int.ofNat_lt.mpr hver⟩
  have e1 : ∀ rest : List (String × Json),
      parseRowEntries (("_pk", Json.str r.key) :: rest)
          ⟨none, none, none, none, []⟩ =
        parseRowEntries rest ⟨some r.key, none, none, none, []⟩ :=
    fun _ => rfl
  have e2 : ∀ rest : List (String × Json),
      parseRowEntries
          (("_version", Json.num (Num.int (Int.ofNat r.version))) :: rest)
          ⟨some r.key, none, none, none, []⟩ =
        if 0 ≤ Int.ofNat r.version ∧ Int.ofNat r.version < 2 ^ 64 then
          parseRowEntries rest
            ⟨some r.key, some (Int.ofNat r.version).toNat, none, none, []⟩
        else .error (.serialization "invalid value for _version") := by
    intro rest
    rw [parseRowEntries.eq_def]
    simp
  have e3 : ∀ rest : List (String × Json),
      parseRowEntries (("_created_at", Json.str r.createdAt) :: rest)
          ⟨some r.key, some (Int.ofNat r.version).toNat, none, none, []⟩ =
        parseRowEntries rest
          ⟨some r.key, some (Int.ofNat r.version).toNat, some r.createdAt,
            none, []⟩ :=
    fun _ => rfl
  have e4 : ∀ rest : List (String × Json),
      parseRowEntries (("_updated_at", Json.str r.updatedAt) :: rest)
          ⟨some r.key, some (Int.ofNat r.version).toNat, some r.createdAt,
            none, []⟩ =
        parseRowEntries rest
          ⟨some r.key, some (Int.ofNat r.version).toNat, some r.createdAt,
            some r.updatedAt, []⟩ :=
    fun _ => rfl
  rw [serialize_row]
  simp only [List.cons_append, List.nil_append]
  rw [e1, e2, if_pos hi, e3, e4,
    parseRowEntries_data r.data r.key ((Int.ofNat r.version).toNat)
      r.createdAt r.updatedAt [] hmeta,
    foldl_btInsert_sorted r.data [] (by simp) hsorted]
  simp

/-- Claim C5 (amended): for a well-formed row — its data map holds no
reserved metadata key, is strictly key-sorted, and its version fits in a
`u64` — the round-trip at the row's own key returns the row, and at any
other key it fails with the `Corrupted` primary-key-mismatch error. -/
theorem C5_roundtrip_and_mismatch (r : Row) (k : String)
    (hver : r.version < 2 ^ 64)
    (hmeta : ∀ p ∈ r.data, p.1 ∉ metaKeys)
    (hsorted : r.data.Pairwise fun p q => strLt p.1 q.1 = true) :
    deserialize_row (serialize_row r) r.key = .ok r ∧
    (k ≠ r.key →
      deserialize_row (serialize_row r) k =
        .error (.corruptedData (k ++ ".json")
          ("primary key mismatch: file name suggests " ++ k ++
            " but content has " ++ r.key))) := by
  have hp := parseRowEntries_serialize r hver hmeta hsorted
  constructor
  · rw [deserialize_row, hp]
    show (if r.key ≠ r.key then
        (Except.error (StorageError.corruptedData (r.key ++ ".json")
          ("primary key mismatch: file name suggests " ++ r.key ++
            " but content has " ++ r.key)) : Except StorageError Row)
      else Except.ok
        (⟨r.key, r.version, r.createdAt, r.updatedAt, r.data⟩ : Row)) =
      Except.ok r
    rw [if_neg fun h => h rfl]
  · intro hk
    rw [deserialize_row, hp]
    show (if r.key ≠ k then
        (Except.error (StorageError.corruptedData (k ++ ".json")
          ("primary key mismatch: file name suggests " ++ k ++
            " but content has " ++ r.key)) : Except StorageError Row)
      else Except.ok
        (⟨k, r.version, r.createdAt, r.updatedAt, r.data⟩ : Row)) =
      Except.error (StorageError.corruptedData (k ++ ".json")
        ("primary key mismatch: file name suggests " ++ k ++
          " but content has " ++ r.key))
    rw [if_pos (Ne.symm hk)]

/-- A concrete well-formed two-column row. -/
def c5WRow : Row := ⟨"a", 1, "t0", "t1", [("x", .num (.int 2)), ("y", .null)]⟩

/-- Witness for C5 at a concrete row and the foreign key `"b"`. -/
theorem C5_roundtrip_and_mismatch_witness :
    deserialize_row (serialize_row c5WRow) "a" = .ok c5WRow ∧
    deserialize_row (serialize_row c5WRow) "b" =
      .error (.corruptedData "b.json"
        "primary key mismatch: file name suggests b but content has a") := by
  have h := C5_roundtrip_and_mismatch c5WRow "b" (by decide) (by decide)
    (by decide)
  exact ⟨h.1, h.2 (by decide)⟩

/-! ## Claim C6: abandoned-transaction cleanup -/

/-- A name occurring among the keys of an association list is found by
`lookup`. -/
theorem lookup_isSome_of_mem :
    ∀ {l : List (String × Nat)} {a : String},
      a ∈ l.map Prod.fst → (List.lookup a l).isSome = true
  | [], _, h => absurd h (by simp)
  | (k, v) :: t, a, h => by
    by_cases hk : a = k
    · subst hk
      simp [List.lookup]
    · have hb : (a == k) = false := beq_eq_false_iff_ne.mpr hk
      rw [List.map_cons] at h
      rcases List.mem_cons.mp h with h1 | h1
      · exact absurd h1 hk
      · simp only [List.lookup, hb]
        exact lookup_isSome_of_mem h1

/-- Every `tx/`-prefixed name is rebuilt by `for_transaction` from its
transaction id. -/
theorem forTransaction_strDrop :
    ∀ {n : String}, strStarts n "tx/" = true →
      BranchName.forTransaction (strDrop n 3) = n := by
  intro n h
  obtain ⟨data⟩ := n
  rw [strStarts, List.isPrefixOf_iff_prefix] at h
  obtain ⟨t, ht⟩ := h
  have hd : data = 't' :: 'x' :: '/' :: t := ht.symm
  subst hd
  rfl

/-- `list_transaction_branches` lists exactly the valid `tx/`-prefixed
branch names, in branch order. -/
theorem listTransactionBranches_eq (s : RepoState) :
    listTransactionBranches s =
      (s.branches.map Prod.fst).filter fun n =>
        strStarts n "tx/" && BranchName.valid n := by
  rw [listTransactionBranches, listBranches]
  induction s.branches with
  | nil => rfl
  | cons e t ih =>
    rw [List.filterMap_cons, List.map_cons, List.filter_cons]
    by_cases hp : (strStarts e.1 "tx/" && BranchName.valid e.1) = true
    · simp only [hp, if_true]
      rw [← ih]
    · have hp2 : (strStarts e.1 "tx/" && BranchName.valid e.1) = false :=
        Bool.not_eq_true _ ▸ eq_false_of_ne_true hp
      simp only [hp2, Bool.false_eq_true, if_false]
      rw [← ih]

/-- The deletion fold of `cleanup_abandoned`, over a list of distinct,
present, `tx/`-prefixed branch names: it removes exactly the listed
branches whose id is outside `ids` and counts them. -/
theorem cleanupFold_spec (ids : List String) :
    ∀ (L : List String) (s : RepoState) (c : Nat),
      (∀ n ∈ L, strStarts n "tx/" = true) → L.Nodup →
      (∀ n ∈ L, n ∈ s.branches.map Prod.fst) →
      L.foldl
        (fun (acc : RepoState × Nat) name =>
          match BranchName.transactionId name with
          | some txId =>
            if txId ∈ ids then acc
            else
              match deleteTransactionBranch acc.1 txId with
              | .ok s2 => (s2, acc.2 + 1)
              | .error _ => acc
          | none => acc)
        (s, c) =
      (⟨s.commits,
        s.branches.filter fun b =>
          !(decide (b.1 ∈ L) && !(decide (strDrop b.1 3 ∈ ids)))⟩,
       c + (L.filter fun n => !(decide (strDrop n 3 ∈ ids))).length)
  | [], s, c, _, _, _ => by simp
  | n :: L, s, c, hpre, hnd, hmem => by
    rw [List.nodup_cons] at hnd
    have hs : strStarts n "tx/" = true := hpre n (List.mem_cons_self _ _)
    have htid : BranchName.transactionId n = some (strDrop n 3) := by
      simp [BranchName.transactionId, hs]
    rw [List.foldl_cons]
    simp only [htid]
    by_cases hid : strDrop n 3 ∈ ids
    · rw [if_pos hid]
      rw [cleanupFold_spec ids L s c
        (fun x hx => hpre x (List.mem_cons_of_mem _ hx)) hnd.2
        (fun x hx => hmem x (List.mem_cons_of_mem _ hx))]
      have hfeq : s.branches.filter
          (fun b => !(decide (b.1 ∈ L) && !(decide (strDrop b.1 3 ∈ ids)))) =
          s.branches.filter
          (fun b => !(decide (b.1 ∈ n :: L) && !(decide (strDrop b.1 3 ∈ ids)))) := by
        apply List.filter_congr
        intro b _
        by_cases hbn : b.1 = n
        · simp [hbn, List.mem_cons, hid, hnd.1]
        · simp [List.mem_cons, hbn]
      have hcnt : (L.filter fun x => !(decide (strDrop x 3 ∈ ids))).length =
          ((n :: L).filter fun x => !(decide (strDrop x 3 ∈ ids))).length := by
        rw [List.filter_cons]
        simp [hid]
      rw [hfeq, hcnt]
    · rw [if_neg hid]
      have hex : branchExists s n = true :=
        lookup_isSome_of_mem (hmem n (List.mem_cons_self _ _))
      have hdel : deleteTransactionBranch s (strDrop n 3) =
          .ok ⟨s.commits, s.branches.filter fun e => !(e.1 == n)⟩ := by
        rw [deleteTransactionBranch, forTransaction_strDrop hs, deleteBranch,
          hex]
        rfl
      rw [hdel]
      have hmem2 : ∀ x ∈ L,
          x ∈ (s.branches.filter fun e => !(e.1 == n)).map Prod.fst := by
        intro x hx
        have hxs := hmem x (List.mem_cons_of_mem _ hx)
        have hxn : x ≠ n := fun he => hnd.1 (he ▸ hx)
        rcases List.mem_map.mp hxs with ⟨e, he1, he2⟩
        exact List.mem_map.mpr
          ⟨e, List.mem_filter.mpr ⟨he1, by simp [he2, hxn]⟩, he2⟩
      rw [cleanupFold_spec ids L
        ⟨s.commits, s.branches.filter fun e => !(e.1 == n)⟩ (c + 1)
        (fun x hx => hpre x (List.mem_cons_of_mem _ hx)) hnd.2 hmem2]
      have hff : (s.branches.filter fun e => !(e.1 == n)).filter
          (fun b => !(decide (b.1 ∈ L) && !(decide (strDrop b.1 3 ∈ ids)))) =
          s.branches.filter
          (fun b => !(decide (b.1 ∈ n :: L) && !(decide (strDrop b.1 3 ∈ ids)))) := by
        rw [List.filter_filter]
        apply List.filter_congr
        intro b _
        by_cases hbn : b.1 = n
        · simp [hbn, List.mem_cons, hid]
        · simp [List.mem_cons, hbn]
      have hcnt : ((n :: L).filter fun x => !(decide (strDrop x 3 ∈ ids))).length =
          (L.filter fun x => !(decide (strDrop x 3 ∈ ids))).length + 1 := by
        rw [List.filter_cons]
        simp [hid]
      rw [hff, hcnt]
      refine congrArg (Prod.mk _) ?_
      omega

/-- Claim C6: `cleanup_abandoned` deletes exactly the valid `tx/`
branches whose transaction id is not in the snapshot of active ids,
returns the number of branches it deleted, and leaves the commits, the
active registry and every other branch — in particular every branch of
an active transaction — untouched. -/
theorem C6_cleanup_deletes_exactly_inactive (m : ManagerState)
    (hnodup : (m.repo.branches.map Prod.fst).Nodup) :
    (managerCleanupAbandoned m).1.repo.branches =
      m.repo.branches.filter (fun b =>
        !((strStarts b.1 "tx/" && BranchName.valid b.1) &&
          !(decide (strDrop b.1 3 ∈ m.active.map Prod.fst)))) ∧
    (managerCleanupAbandoned m).2 =
      (m.repo.branches.filter (fun b =>
        (strStarts b.1 "tx/" && BranchName.valid b.1) &&
          !(decide (strDrop b.1 3 ∈ m.active.map Prod.fst)))).length ∧
    (managerCleanupAbandoned m).1.active = m.active ∧
    (managerCleanupAbandoned m).1.repo.commits = m.repo.commits := by
  have hL := listTransactionBranches_eq m.repo
  have hpre : ∀ n ∈ listTransactionBranches m.repo, strStarts n "tx/" = true := by
    intro n hn
    rw [hL] at hn
    have h2 := (List.mem_filter.mp hn).2
    simp only [Bool.and_eq_true] at h2
    exact h2.1
  have hnd : (listTransactionBranches m.repo).Nodup := by
    rw [hL]
    exact hnodup.filter _
  have hmem : ∀ n ∈ listTransactionBranches m.repo,
      n ∈ m.repo.branches.map Prod.fst := by
    intro n hn
    rw [hL] at hn
    exact (List.mem_filter.mp hn).1
  have hfold := cleanupFold_spec (m.active.map Prod.fst)
    (listTransactionBranches m.repo) m.repo 0 hpre hnd hmem
  have hptw : ∀ b ∈ m.repo.branches,
      decide (b.1 ∈ listTransactionBranches m.repo) =
        (strStarts b.1 "tx/" && BranchName.valid b.1) := by
    intro b hb
    by_cases hp : (strStarts b.1 "tx/" && BranchName.valid b.1) = true
    · rw [hp]
      apply decide_eq_true
      rw [hL]
      exact List.mem_filter.mpr ⟨List.mem_map.mpr ⟨b, hb, rfl⟩, hp⟩
    · have hp2 := eq_false_of_ne_true hp
      rw [hp2]
      apply decide_eq_false
      intro hmem2
      rw [hL] at hmem2
      exact hp (List.mem_filter.mp hmem2).2
  have hm : managerCleanupAbandoned m =
      ({ m with repo :=
          ⟨m.repo.commits, m.repo.branches.filter fun b =>
            !(decide (b.1 ∈ listTransactionBranches m.repo) &&
              !(decide (strDrop b.1 3 ∈ m.active.map Prod.fst)))⟩ },
        0 + ((listTransactionBranches m.repo).filter fun n =>
          !(decide (strDrop n 3 ∈ m.active.map Prod.fst))).length) := by
    rw [managerCleanupAbandoned]
    rw [hfold]
  refine ⟨?_, ?_, ?_, ?_⟩
  · rw [hm]
    exact List.filter_congr fun b hb => by rw [hptw b hb]
  · rw [hm]
    show 0 + ((listTransactionBranches m.repo).filter fun n =>
        !(decide (strDrop n 3 ∈ m.active.map Prod.fst))).length = _
    rw [Nat.zero_add, hL, List.filter_filter]
    have hcomm : ((m.repo.branches.map Prod.fst).filter fun a =>
        !(decide (strDrop a 3 ∈ m.active.map Prod.fst)) &&
          (strStarts a "tx/" && BranchName.valid a)) =
        ((m.repo.branches.map Prod.fst).filter fun a =>
          (strStarts a "tx/" && BranchName.valid a) &&
            !(decide (strDrop a 3 ∈ m.active.map Prod.fst))) :=
      List.filter_congr fun a _ => Bool.and_comm _ _
    rw [hcomm, List.filter_map, List.length_map]
    rfl
  · rw [hm]
  · rw [hm]

/-- Metadata of the one live transaction of the cleanup witness. -/
def c6WMeta : TransactionMetadata := ⟨"live", "tx/live", 0, 0, .readCommitted⟩

/-- A manager state with one active transaction branch and one abandoned
transaction branch. -/
def c6WState : ManagerState :=
  ⟨⟨[⟨[("_schema", [])], [], "init"⟩],
    [("main", 0), ("tx/live", 0), ("tx/dead", 0)]⟩,
    [("live", c6WMeta)], 5⟩

/-- Witness for C6: cleanup deletes `tx/dead`, keeps `main` and the
active `tx/live`, and reports one deletion. -/
theorem C6_cleanup_deletes_exactly_inactive_witness :
    (managerCleanupAbandoned c6WState).1.repo.branches =
      [("main", 0), ("tx/live", 0)] ∧
    (managerCleanupAbandoned c6WState).2 = 1 := by
  have h := C6_cleanup_deletes_exactly_inactive c6WState (by decide)
  exact ⟨h.1.trans (by decide), h.2.1.trans (by decide)⟩

/-! ## Claim C7: the frame effect of the engine mutations -/

/-- Reduction of `Except` bind on a success value. -/
theorem exceptBind_ok {ε α β : Type _} (a : α) (f : α → Except ε β) :
    (Except.ok a >>= f) = f a := rfl

/-- Reduction of `Except` bind on an error value. -/
theorem exceptBind_err {ε α β : Type _} (e : ε) (f : α → Except ε β) :
    ((Except.error e : Except ε α) >>= f) = Except.error e := rfl

/-- A repository with a second commit (holding the `_t` table) and main
still on the initial commit. -/
def c7S : RepoState :=
  match repoCreateTable initRepo "_t" 0 none with
  | .ok p => p.1
  | .error _ => initRepo

/-- Claim C7 counterexample: `update_branch` is an engine ref operation
other than `fast_forward_main`, and it moves `main` — the claim that
only `fast_forward_main` moves a branch is false.  (`update_branch` is
what the transaction context and the executor call to advance refs.) -/
theorem C7_update_branch_moves_main :
    List.lookup "main" c7S.branches = some 0 ∧
    (updateBranch c7S "main" 1).map (fun s2 => List.lookup "main" s2.branches) =
      .ok (some 1) := by decide

/-- Claim C7 (amended): each of the six repository mutations, invoked
against version `at`, leaves every branch reference untouched, appends
one new commit whose sole parent is `at`, and returns that commit's
fresh id — an id no commit of the starting state has. -/
theorem C7_mutations_preserve_branches (s : RepoState) (table key : String)
    (row : Row) (atC : Nat) (txId : Option String) :
    (∀ s2 c, repoCreateTable s table atC txId = .ok (s2, c) →
      s2.branches = s.branches ∧ c = s.commits.length ∧
        s.commits.get? c = none ∧
        ∃ t m, s2.commits = s.commits ++ [⟨t, [atC], m⟩]) ∧
    (∀ s2 c, repoDropTable s table atC txId = .ok (s2, c) →
      s2.branches = s.branches ∧ c = s.commits.length ∧
        s.commits.get? c = none ∧
        ∃ t m, s2.commits = s.commits ++ [⟨t, [atC], m⟩]) ∧
    (∀ s2 c, repoInsertRow s table row atC txId = .ok (s2, c) →
      s2.branches = s.branches ∧ c = s.commits.length ∧
        s.commits.get? c = none ∧
        ∃ t m, s2.commits = s.commits ++ [⟨t, [atC], m⟩]) ∧
    (∀ s2 c, repoUpdateRow s table row atC txId = .ok (s2, c) →
      s2.branches = s.branches ∧ c = s.commits.length ∧
        s.commits.get? c = none ∧
        ∃ t m, s2.commits = s.commits ++ [⟨t, [atC], m⟩]) ∧
    (∀ s2 c, repoUpsertRow s table row atC txId = .ok (s2, c) →
      s2.branches = s.branches ∧ c = s.commits.length ∧
        s.commits.get? c = none ∧
        ∃ t m, s2.commits = s.commits ++ [⟨t, [atC], m⟩]) ∧
    (∀ s2 c, repoDeleteRow s table key atC txId = .ok (s2, c) →
      s2.branches = s.branches ∧ c = s.commits.length ∧
        s.commits.get? c = none ∧
        ∃ t m, s2.commits = s.commits ++ [⟨t, [atC], m⟩]) := by
  have hnone : s.commits.get? s.commits.length = none :=
    List.get?_eq_none.mpr (le_refl _)
  refine ⟨?_, ?_, ?_, ?_, ?_, ?_⟩
  · intro s2 c h
    unfold repoCreateTable at h
    cases h1 : getTreeAtCommit s atC with
    | error e => rw [h1, exceptBind_err] at h; exact Except.noConfusion h
    | ok tree =>
      rw [h1, exceptBind_ok] at h
      cases h2 : treeCreateTable tree table with
      | error e => rw [h2, exceptBind_err] at h; exact Except.noConfusion h
      | ok tree2 =>
        rw [h2, exceptBind_ok] at h
        simp only [mkCommit, Except.ok.injEq, Prod.mk.injEq] at h
        obtain ⟨h3, h4⟩ := h
        subst h3
        subst h4
        exact ⟨rfl, rfl, hnone, tree2, msgCreateTable table txId, rfl⟩
  · intro s2 c h
    unfold repoDropTable at h
    cases h1 : getTreeAtCommit s atC with
    | error e => rw [h1, exceptBind_err] at h; exact Except.noConfusion h
    | ok tree =>
      rw [h1, exceptBind_ok] at h
      cases h2 : treeDropTable tree table with
      | error e => rw [h2, exceptBind_err] at h; exact Except.noConfusion h
      | ok tree2 =>
        rw [h2, exceptBind_ok] at h
        simp only [mkCommit, Except.ok.injEq, Prod.mk.injEq] at h
        obtain ⟨h3, h4⟩ := h
        subst h3
        subst h4
        exact ⟨rfl, rfl, hnone, tree2, msgDropTable table txId, rfl⟩
  · intro s2 c h
    unfold repoInsertRow at h
    cases h1 : getTreeAtCommit s atC with
    | error e => rw [h1, exceptBind_err] at h; exact Except.noConfusion h
    | ok tree =>
      rw [h1, exceptBind_ok] at h
      cases h2 : treeRowExists tree table row.key with
      | error e => rw [h2, exceptBind_err] at h; exact Except.noConfusion h
      | ok b =>
        rw [h2, exceptBind_ok] at h
        cases b with
        | true => rw [if_pos rfl] at h; exact Except.noConfusion h
        | false =>
          rw [if_neg Bool.false_ne_true] at h
          simp only [] at h
          cases h3 : treeUpsertRow tree table row.key (write_blob row) with
          | error e => rw [h3, exceptBind_err] at h; exact Except.noConfusion h
          | ok tree2 =>
            rw [h3, exceptBind_ok] at h
            simp only [mkCommit, Except.ok.injEq, Prod.mk.injEq] at h
            obtain ⟨h4, h5⟩ := h
            subst h4
            subst h5
            exact ⟨rfl, rfl, hnone, tree2, msgInsert table row.key txId, rfl⟩
  · intro s2 c h
    unfold repoUpdateRow at h
    cases h1 : getTreeAtCommit s atC with
    | error e => rw [h1, exceptBind_err] at h; exact Except.noConfusion h
    | ok tree =>
      rw [h1, exceptBind_ok] at h
      cases h2 : treeRowExists tree table row.key with
      | error e => rw [h2, exceptBind_err] at h; exact Except.noConfusion h
      | ok b =>
        rw [h2, exceptBind_ok] at h
        cases b with
        | false =>
          simp only [Bool.not_false, if_true] at h
          exact Except.noConfusion h
        | true =>
          simp only [Bool.not_true] at h
          rw [if_neg Bool.false_ne_true] at h
          cases h3 : treeUpsertRow tree table row.key (write_blob row) with
          | error e => rw [h3, exceptBind_err] at h; exact Except.noConfusion h
          | ok tree2 =>
            rw [h3, exceptBind_ok] at h
            simp only [mkCommit, Except.ok.injEq, Prod.mk.injEq] at h
            obtain ⟨h4, h5⟩ := h
            subst h4
            subst h5
            exact ⟨rfl, rfl, hnone, tree2, msgUpdate table row.key txId, rfl⟩
  · intro s2 c h
    unfold repoUpsertRow at h
    cases h1 : getTreeAtCommit s atC with
    | error e => rw [h1, exceptBind_err] at h; exact Except.noConfusion h
    | ok tree =>
      rw [h1, exceptBind_ok] at h
      cases h2 : treeRowExists tree table row.key with
      | error e => rw [h2, exceptBind_err] at h; exact Except.noConfusion h
      | ok b =>
        rw [h2, exceptBind_ok] at h
        simp only [] at h
        cases h3 : treeUpsertRow tree table row.key (write_blob row) with
        | error e => rw [h3, exceptBind_err] at h; exact Except.noConfusion h
        | ok tree2 =>
          rw [h3, exceptBind_ok] at h
          simp only [mkCommit, Except.ok.injEq, Prod.mk.injEq] at h
          obtain ⟨h4, h5⟩ := h
          subst h4
          subst h5
          exact ⟨rfl, rfl, hnone, tree2,
            if b = true then msgUpdate table row.key txId
            else msgInsert table row.key txId, rfl⟩
  · intro s2 c h
    unfold repoDeleteRow at h
    cases h1 : getTreeAtCommit s atC with
    | error e => rw [h1, exceptBind_err] at h; exact Except.noConfusion h
    | ok tree =>
      rw [h1, exceptBind_ok] at h
      cases h2 : treeDeleteRow tree table key with
      | error e => rw [h2, exceptBind_err] at h; exact Except.noConfusion h
      | ok tree2 =>
        rw [h2, exceptBind_ok] at h
        simp only [mkCommit, Except.ok.injEq, Prod.mk.injEq] at h
        obtain ⟨h3, h4⟩ := h
        subst h3
        subst h4
        exact ⟨rfl, rfl, hnone, tree2, msgDelete table key txId, rfl⟩

/-- The state and commit id returned by the witness insert call. -/
def c7W : RepoState × Nat :=
  match repoInsertRow c7S "_t" (Row.mkNew "k" [] "tW") 1 none with
  | .ok p => p
  | .error _ => (initRepo, 0)

/-- Witness for C7: an insert mutation at commit 1 returns the fresh
commit id and leaves the branches untouched. -/
theorem C7_mutations_preserve_branches_witness :
    c7W.1.branches = c7S.branches ∧ c7W.2 = c7S.commits.length := by
  have h := (C7_mutations_preserve_branches c7S "_t" "k"
    (Row.mkNew "k" [] "tW") 1 none).2.2.1 c7W.1 c7W.2 (by decide)
  exact ⟨h.1, h.2.1⟩

end GitDB
